import Mathlib

/-!
Verification of the Lan-FPS authoritative server (`src/Server.py`).

The Python source is shallowly embedded:
* world coordinates are rationals (every quantity the program manipulates is a
  multiple of 1/2, on which Python float arithmetic is exact);
* the maze generator's use of `random` is modelled by an oracle, a stream of
  naturals `ℕ → ℕ`; each call to the random library consumes one oracle value,
  and theorems quantify over all oracles;
* Python exceptions (KeyError, ValueError, IndexError) are modelled with
  `Except`, the error carrying the state at the moment the exception is raised;
* Python's negative-index wraparound on lists is modelled by `pyIdx`.
-/

set_option maxHeartbeats 1000000

namespace LanFPS

/-- A 3-component world vector (the Python dicts `{"x": .., "y": .., "z": ..}`). -/
structure Vec3 where
  x : ℚ
  y : ℚ
  z : ℚ
deriving DecidableEq, Repr

/-! ### Game constants (`Server.py` lines 142-150) -/

def MAZE_WIDTH : ℕ := 17
def MAZE_HEIGHT : ℕ := 17
def NUM_MAZE_LAYERS : ℕ := 2
def BLOCK_SIZE : ℚ := 5
def WALL_HEIGHT : ℚ := 6
def MAX_HEALTH : ℤ := 100
def BULLET_DAMAGE : ℤ := 10

/-! ### CoordinateMapper (`grid_to_world_coords` / `world_to_grid_coords`) -/

/-- `grid_to_world_coords(grid_row, grid_col, layer)`, Server.py lines 163-172. -/
def grid_to_world_coords (grid_row grid_col layer : ℤ) : Vec3 :=
  { x := grid_col * BLOCK_SIZE - ((MAZE_WIDTH : ℚ) * BLOCK_SIZE) / 2 + BLOCK_SIZE / 2
    y := layer * WALL_HEIGHT
    z := grid_row * BLOCK_SIZE - ((MAZE_HEIGHT : ℚ) * BLOCK_SIZE) / 2 + BLOCK_SIZE / 2 }

/-- `world_to_grid_coords(world_x, world_z)`, Server.py lines 175-181.
Returns the pair (r, c). -/
def world_to_grid_coords (world_x world_z : ℚ) : ℤ × ℤ :=
  (⌊(world_z + ((MAZE_HEIGHT : ℚ) * BLOCK_SIZE) / 2 - BLOCK_SIZE / 2) / BLOCK_SIZE⌋,
   ⌊(world_x + ((MAZE_WIDTH : ℚ) * BLOCK_SIZE) / 2 - BLOCK_SIZE / 2) / BLOCK_SIZE⌋)

/-! ### Maze representation

A maze layer is a list of rows of cell characters, exactly the Python
list-of-lists of single-character strings (`#` wall, `' '` open, `S`, `E`,
`L`, `l`).  Out-of-range reads return the sentinel `'X'`, which no maze cell
ever holds; all reads the program performs are range-guarded. -/

abbrev Maze := List (List Char)
abbrev MazeSet := List Maze

def getCell (m : Maze) (r c : ℕ) : Char := (m.getD r []).getD c 'X'

def setCell (m : Maze) (r c : ℕ) (ch : Char) : Maze :=
  m.set r ((m.getD r []).set c ch)

def getCellZ (m : Maze) (r c : ℤ) : Char :=
  if 0 ≤ r ∧ 0 ≤ c then getCell m r.toNat c.toNat else 'X'

def setCellZ (m : Maze) (r c : ℤ) (ch : Char) : Maze :=
  if 0 ≤ r ∧ 0 ≤ c then setCell m r.toNat c.toNat ch else m

/-- Number of wall cells; the carving recursion terminates because it
strictly decreases. -/
def countWalls (m : Maze) : ℕ := (m.map fun row => row.countP (· == '#')).sum

/-- Count of cells holding `ch` in one layer. -/
def countCh (ch : Char) (m : Maze) : ℕ := (m.map fun row => row.countP (· == ch)).sum

/-- Count of cells holding `ch` over a whole maze set. -/
def countChSet (ch : Char) (ms : MazeSet) : ℕ := (ms.map (countCh ch)).sum

/-- A stream of naturals standing in for Python's `random` module: each call
to the random library consumes one stream element, and every theorem
quantifies over all streams. -/
abbrev Oracle := ℕ → ℕ

/-- One of the `n!` reorderings of `l`, selected by `k`; as `k` ranges over ℕ
this reaches every permutation, so quantifying over `k` covers every outcome
of Python's `random.shuffle`. -/
def permuteBy (k : ℕ) (l : List α) : List α :=
  match l with
  | [] => []
  | x :: xs =>
    let i := k % (x :: xs).length
    (x :: xs).getD i x :: permuteBy (k / (x :: xs).length) ((x :: xs).eraseIdx i)
termination_by l.length
decreasing_by
  have hi : k % (xs.length + 1) < xs.length + 1 := Nat.mod_lt _ (by omega)
  simp [List.length_eraseIdx, hi]

/-- `random.choice(l)` with choice value `k`; only evaluated when `l ≠ []`. -/
def choiceBy (k : ℕ) (l : List α) (d : α) : α := l.getD (k % l.length) d

/-! ### Counting lemmas for cell updates -/

theorem countP_set_balance (p : Char → Bool) (row : List Char) (c : ℕ) (w : Char)
    (h : c < row.length) :
    (row.set c w).countP p + (if p (row.getD c 'X') then 1 else 0)
      = row.countP p + (if p w then 1 else 0) := by
  induction row generalizing c with
  | nil => simp at h
  | cons a as ih =>
    cases c with
    | zero =>
      cases hpa : p a <;> cases hpw : p w <;>
        simp [List.countP_cons, hpa, hpw]
    | succ n =>
      have hn : n < as.length := by simpa using h
      have := ih n hn
      cases hpa : p a <;>
        simp only [List.set_cons_succ, List.countP_cons, List.getD_cons_succ, hpa] <;>
        omega

theorem mapSum_set (f : α → ℕ) (l : List α) (i : ℕ) (x d : α) (h : i < l.length) :
    ((l.set i x).map f).sum + f (l.getD i d) = (l.map f).sum + f x := by
  induction l generalizing i with
  | nil => simp at h
  | cons a as ih =>
    cases i with
    | zero => simp [Nat.add_comm, Nat.add_left_comm]
    | succ n =>
      have hn : n < as.length := by simpa using h
      have := ih n hn
      simp only [List.set_cons_succ, List.map_cons, List.sum_cons, List.getD_cons_succ]
      omega

/-- `getCell` only returns a character other than the sentinel when the
position is genuinely in range. -/
theorem getCell_in_range {m : Maze} {r c : ℕ} (h : getCell m r c ≠ 'X') :
    r < m.length ∧ c < (m.getD r []).length := by
  unfold getCell at h
  by_cases hr : r < m.length
  · refine ⟨hr, ?_⟩
    by_cases hc : c < (m.getD r []).length
    · exact hc
    · exact absurd (List.getD_eq_default _ _ (Nat.le_of_not_lt hc)) h
  · rw [List.getD_eq_default _ _ (Nat.le_of_not_lt hr)] at h
    simp [List.getD] at h

/-- The balance equation for a single cell update, in-range version. -/
theorem countCh_setCell_balance (ch : Char) (m : Maze) (r c : ℕ) (w : Char)
    (hr : r < m.length) (hc : c < (m.getD r []).length) :
    countCh ch (setCell m r c w) + (if getCell m r c == ch then 1 else 0)
      = countCh ch m + (if w == ch then 1 else 0) := by
  unfold countCh setCell getCell
  have h1 := mapSum_set (fun row => row.countP (· == ch)) m r
    ((m.getD r []).set c w) [] hr
  have h2 := countP_set_balance (· == ch) (m.getD r []) c w hc
  simp only at h1 h2
  omega

theorem getD_set_same (l : List α) (i : ℕ) (x d : α) (h : i < l.length) :
    (l.set i x).getD i d = x := by
  rw [List.getD_eq_getElem _ _ (by simpa using h)]
  exact List.getElem_set_self _

theorem getD_set_other (l : List α) {i j : ℕ} (x d : α) (h : i ≠ j) :
    (l.set i x).getD j d = l.getD j d := by
  by_cases hj : j < l.length
  · rw [List.getD_eq_getElem _ _ (by simpa using hj), List.getD_eq_getElem _ _ hj]
    exact List.getElem_set_ne h _
  · rw [List.getD_eq_default _ _ (by simpa using Nat.le_of_not_lt hj),
      List.getD_eq_default _ _ (Nat.le_of_not_lt hj)]

/-- Writing any character to any position never increases the count of a
different character. -/
theorem countCh_setCell_le (ch : Char) (m : Maze) (r c : ℕ) (w : Char) (hw : ¬ w = ch) :
    countCh ch (setCell m r c w) ≤ countCh ch m := by
  by_cases hr : r < m.length
  · by_cases hc : c < (m.getD r []).length
    · have := countCh_setCell_balance ch m r c w hr hc
      have hwne : (w == ch) = false := by simpa using hw
      rw [hwne] at this
      simp at this
      omega
    · unfold setCell
      have hrow : (m.getD r []).set c w = m.getD r [] :=
        List.set_eq_of_length_le (Nat.le_of_not_lt hc)
      rw [hrow]
      have := mapSum_set (fun row => row.countP (· == ch)) m r (m.getD r []) [] hr
      unfold countCh
      omega
  · unfold setCell
    rw [List.set_eq_of_length_le (Nat.le_of_not_lt hr)]

/-- Overwriting a cell that holds `ch` with a different character strictly
decreases the count of `ch`. -/
theorem countCh_setCell_lt (ch : Char) (m : Maze) (r c : ℕ) (w : Char)
    (hold : getCell m r c = ch) (hch : ch ≠ 'X') (hw : ¬ w = ch) :
    countCh ch (setCell m r c w) < countCh ch m := by
  obtain ⟨hr, hc⟩ := getCell_in_range (by rw [hold]; exact hch)
  have := countCh_setCell_balance ch m r c w hr hc
  have h1 : (getCell m r c == ch) = true := by simpa using hold
  have h2 : (w == ch) = false := by simpa using hw
  rw [h1, h2] at this
  simp at this
  omega

/-- A cell update leaves every cell either unchanged or holding the written
character. -/
theorem getCell_setCell (m : Maze) (r c : ℕ) (w : Char) (r' c' : ℕ) :
    getCell (setCell m r c w) r' c' = getCell m r' c'
      ∨ getCell (setCell m r c w) r' c' = w := by
  unfold getCell setCell
  by_cases hr : r < m.length
  · by_cases hrr : r = r'
    · subst hrr
      rw [getD_set_same _ _ _ _ hr]
      by_cases hcc : c = c'
      · subst hcc
        by_cases hc : c < (m.getD r []).length
        · right
          exact getD_set_same _ _ _ _ hc
        · left
          rw [List.set_eq_of_length_le (Nat.le_of_not_lt hc)]
      · left
        rw [getD_set_other _ _ _ hcc]
    · left
      rw [getD_set_other _ _ _ hrr]
  · left
    rw [List.set_eq_of_length_le (Nat.le_of_not_lt hr)]

/-- A cell update at one position leaves every other position unchanged. -/
theorem getCell_setCell_ne (m : Maze) (mr mc tr tc : ℕ) (w : Char)
    (hne : ¬ (mr = tr ∧ mc = tc)) :
    getCell (setCell m mr mc w) tr tc = getCell m tr tc := by
  unfold getCell setCell
  by_cases hr : mr = tr
  · subst hr
    have hc : mc ≠ tc := fun h => hne ⟨rfl, h⟩
    by_cases hlen : mr < m.length
    · rw [getD_set_same _ _ _ _ hlen, getD_set_other _ _ _ hc]
    · rw [List.set_eq_of_length_le (Nat.le_of_not_lt hlen)]
  · rw [getD_set_other _ _ _ hr]

theorem countWalls_set_set_lt (m : Maze) (mr mc tr tc : ℕ)
    (h : getCell m tr tc = '#') :
    countCh '#' (setCell (setCell m mr mc ' ') tr tc ' ') < countCh '#' m := by
  by_cases hsame : mr = tr ∧ mc = tc
  · obtain ⟨rfl, rfl⟩ := hsame
    have hin : countCh '#' (setCell m mr mc ' ') < countCh '#' m :=
      countCh_setCell_lt '#' m mr mc ' ' h (by decide) (by decide)
    exact lt_of_le_of_lt (countCh_setCell_le '#' _ mr mc ' ' (by decide)) hin
  · have hcell : getCell (setCell m mr mc ' ') tr tc = '#' :=
      (getCell_setCell_ne m mr mc tr tc ' ' hsame).trans h
    have hin : countCh '#' (setCell (setCell m mr mc ' ') tr tc ' ')
        < countCh '#' (setCell m mr mc ' ') :=
      countCh_setCell_lt '#' _ tr tc ' ' hcell (by decide) (by decide)
    exact lt_of_lt_of_le hin (countCh_setCell_le '#' m mr mc ' ' (by decide))

theorem countCh_setCellZ_le (ch : Char) (m : Maze) (r c : ℤ) (w : Char) (hw : ¬ w = ch) :
    countCh ch (setCellZ m r c w) ≤ countCh ch m := by
  unfold setCellZ
  split
  · exact countCh_setCell_le ch m _ _ w hw
  · exact le_refl _

theorem countWalls_setZ_setZ_lt (m : Maze) (mr mc tr tc : ℤ)
    (h : getCellZ m tr tc = '#') :
    countCh '#' (setCellZ (setCellZ m mr mc ' ') tr tc ' ') < countCh '#' m := by
  have ht : 0 ≤ tr ∧ 0 ≤ tc := by
    by_contra hcon
    simp [getCellZ, hcon] at h
  have hget : getCell m tr.toNat tc.toNat = '#' := by
    simpa [getCellZ, ht] using h
  by_cases hm : 0 ≤ mr ∧ 0 ≤ mc
  · simp only [setCellZ, if_pos hm, if_pos ht]
    exact countWalls_set_set_lt m mr.toNat mc.toNat tr.toNat tc.toNat hget
  · simp only [setCellZ, if_neg hm, if_pos ht]
    exact countCh_setCell_lt '#' m _ _ ' ' hget (by decide) (by decide)

/-! ### The carving algorithm -/

/-- `MazeGenerator._is_valid` (Server.py lines 24-28). -/
def is_valid (height width : ℕ) (r c : ℤ) : Bool :=
  0 ≤ r && r < (height : ℤ) && 0 ≤ c && c < (width : ℤ)

/-- The direction list of `_carve_path` (Server.py line 37). -/
def directions : List (ℤ × ℤ) := [(0, 2), (0, -2), (2, 0), (-2, 0)]

/-- The recursive `_carve_path` (Server.py lines 30-45), written with an
explicit stack of `(r, c, remaining shuffled directions)` frames (spec §9
notes the explicit-stack form is behaviorally identical).  When the cell two
steps away is still a wall, the in-between cell and the destination are
opened and a frame for the destination is pushed; the pushed call's first
action in the source — opening its own cell — is performed at push time,
which produces the identical maze since the write is idempotent.  Returns
the carved maze and the next unused oracle index. -/
def carveLoop (height width : ℕ) (o : Oracle) :
    ℕ → List (ℤ × ℤ × List (ℤ × ℤ)) → Maze → Maze × ℕ
  | i, [], m => (m, i)
  | i, (_, _, []) :: stack, m => carveLoop height width o i stack m
  | i, (r, c, (dr, dc) :: ds) :: stack, m =>
    if is_valid height width (r + dr) (c + dc) ∧ getCellZ m (r + dr) (c + dc) = '#' then
      carveLoop height width o (i + 1)
        ((r + dr, c + dc, permuteBy (o i) directions) :: (r, c, ds) :: stack)
        (setCellZ (setCellZ m (r + dr / 2) (c + dc / 2) ' ') (r + dr) (c + dc) ' ')
    else
      carveLoop height width o i ((r, c, ds) :: stack) m
termination_by i stack m =>
  (countCh '#' m, (stack.map fun f => f.2.2.length).sum + stack.length)
decreasing_by
  · apply Prod.Lex.right
    simp
  · apply Prod.Lex.left
    exact countWalls_setZ_setZ_lt m (r + dr / 2) (c + dc / 2) (r + dr) (c + dc)
      (by exact (by assumption : is_valid height width (r + dr) (c + dc)
        ∧ getCellZ m (r + dr) (c + dc) = '#').2)
  · apply Prod.Lex.right
    simp

/-- Entry point of `_carve_path(r, c, maze)`: mark the cell open, shuffle
the directions, then run the loop. -/
def carve_path (height width : ℕ) (o : Oracle) (i : ℕ) (r c : ℤ) (m : Maze) :
    Maze × ℕ :=
  carveLoop height width o (i + 1) [(r, c, permuteBy (o i) directions)]
    (setCellZ m r c ' ')

/-- `permuteBy k l` is a rearrangement of `l`, so quantifying over `k` covers
exactly the outcomes of `random.shuffle`. -/
theorem permuteBy_perm (k : ℕ) (l : List (ℤ × ℤ)) : (permuteBy k l).Perm l := by
  match l with
  | [] => simp [permuteBy]
  | x :: xs =>
    rw [permuteBy]
    have hi : k % (x :: xs).length < (x :: xs).length := Nat.mod_lt _ (by simp)
    rw [List.getD_eq_getElem _ _ hi]
    have hrec := permuteBy_perm (k / (x :: xs).length)
      ((x :: xs).eraseIdx (k % (x :: xs).length))
    refine (hrec.cons _).trans ?_
    exact (((List.erase_getElem hi).symm).cons _).trans
      (List.perm_cons_erase (List.getElem_mem hi)).symm
termination_by l.length
decreasing_by
  have hi2 : k % (xs.length + 1) < xs.length + 1 := Nat.mod_lt _ (by omega)
  simp [List.length_eraseIdx]
  split <;> omega

theorem mem_permuteBy (k : ℕ) (l : List (ℤ × ℤ)) (d : ℤ × ℤ) (h : d ∈ l) :
    d ∈ permuteBy k l := ((permuteBy_perm k l).mem_iff).mpr h

theorem getCellZ_setCellZ (m : Maze) (a b p q : ℤ) (w : Char) :
    getCellZ (setCellZ m a b w) p q = getCellZ m p q
      ∨ getCellZ (setCellZ m a b w) p q = w := by
  unfold getCellZ setCellZ
  by_cases hm : 0 ≤ a ∧ 0 ≤ b
  · simp only [if_pos hm]
    by_cases hp : 0 ≤ p ∧ 0 ≤ q
    · simp only [if_pos hp]
      exact getCell_setCell m a.toNat b.toNat w p.toNat q.toNat
    · simp [if_neg hp]
  · simp [if_neg hm]

/-- Carving only ever writes open cells: every position of the carved maze
holds either its original character or `' '`. -/
theorem carveLoop_getCell (height width : ℕ) (o : Oracle) (p q : ℤ)
    (i : ℕ) (stack : List (ℤ × ℤ × List (ℤ × ℤ))) (m : Maze) :
    getCellZ (carveLoop height width o i stack m).1 p q = getCellZ m p q
      ∨ getCellZ (carveLoop height width o i stack m).1 p q = ' ' := by
  induction i, stack, m using carveLoop.induct height width o with
  | case1 i m => left; rw [carveLoop]
  | case2 i a b stack m ih =>
    rw [carveLoop]
    exact ih
  | case3 i r c dr dc ds stack m hguard ih =>
    rw [carveLoop, if_pos hguard]
    rcases ih with h | h
    · rcases getCellZ_setCellZ (setCellZ m (r + dr / 2) (c + dc / 2) ' ')
        (r + dr) (c + dc) p q ' ' with h2 | h2
      · rcases getCellZ_setCellZ m (r + dr / 2) (c + dc / 2) p q ' ' with h3 | h3
        · left; rw [h, h2, h3]
        · right; rw [h, h2, h3]
      · right; rw [h, h2]
    · right; exact h
  | case4 i r c dr dc ds stack m hguard ih =>
    rw [carveLoop, if_neg hguard]
    exact ih

/-- Carving never increases the count of any non-open character. -/
theorem carveLoop_countCh_le (height width : ℕ) (o : Oracle) (ch : Char)
    (hch : ch ≠ ' ') (i : ℕ) (stack : List (ℤ × ℤ × List (ℤ × ℤ))) (m : Maze) :
    countCh ch (carveLoop height width o i stack m).1 ≤ countCh ch m := by
  induction i, stack, m using carveLoop.induct height width o with
  | case1 i m => rw [carveLoop]
  | case2 i a b stack m ih => rw [carveLoop]; exact ih
  | case3 i r c dr dc ds stack m hguard ih =>
    rw [carveLoop, if_pos hguard]
    refine le_trans ih (le_trans (countCh_setCellZ_le ch _ _ _ ' ' ?_)
      (countCh_setCellZ_le ch _ _ _ ' ' ?_)) <;> exact fun h => hch h.symm
  | case4 i r c dr dc ds stack m hguard ih =>
    rw [carveLoop, if_neg hguard]
    exact ih

theorem setCell_length (m : Maze) (r c : ℕ) (w : Char) :
    (setCell m r c w).length = m.length := by
  simp [setCell]

theorem rowLen_setCell (m : Maze) (r c : ℕ) (w : Char) (r' : ℕ) :
    ((setCell m r c w).getD r' []).length = (m.getD r' []).length := by
  unfold setCell
  by_cases hr : r = r'
  · subst hr
    by_cases hlen : r < m.length
    · rw [getD_set_same _ _ _ _ hlen, List.length_set]
    · rw [List.set_eq_of_length_le (Nat.le_of_not_lt hlen)]
  · rw [getD_set_other _ _ _ hr]

theorem getCell_setCell_same (m : Maze) (r c : ℕ) (w : Char)
    (hr : r < m.length) (hc : c < (m.getD r []).length) :
    getCell (setCell m r c w) r c = w := by
  unfold getCell setCell
  rw [getD_set_same _ _ _ _ hr, getD_set_same _ _ _ _ hc]

/-- After opening the in-between cell and then the destination cell, the
destination — a wall of the original maze — is open. -/
theorem open_after_double_setZ (m : Maze) (mr mc tr tc : ℤ)
    (h : getCellZ m tr tc = '#') :
    getCellZ (setCellZ (setCellZ m mr mc ' ') tr tc ' ') tr tc = ' ' := by
  have ht : 0 ≤ tr ∧ 0 ≤ tc := by
    by_contra hcon
    simp [getCellZ, hcon] at h
  have hget : getCell m tr.toNat tc.toNat = '#' := by
    simpa [getCellZ, ht] using h
  obtain ⟨hrin, hcin⟩ := getCell_in_range (by rw [hget]; decide)
  set m' := setCellZ m mr mc ' ' with hm'
  have hlen : m'.length = m.length := by
    rw [hm']; unfold setCellZ
    split
    · exact setCell_length _ _ _ _
    · rfl
  have hrow : ((m'.getD tr.toNat []).length) = ((m.getD tr.toNat []).length) := by
    rw [hm']; unfold setCellZ
    split
    · exact rowLen_setCell _ _ _ _ _
    · rfl
  unfold getCellZ setCellZ
  rw [if_pos ht, if_pos ht]
  exact getCell_setCell_same m' tr.toNat tc.toNat ' ' (by omega) (by omega)

/-- Loop invariant for neighbor coverage: if a valid two-step neighbor of a
frame's cell is already open or its direction is still pending in that
frame, the finished maze does not have a wall there. -/
theorem carveLoop_covers (height width : ℕ) (o : Oracle) (r0 c0 dr0 dc0 : ℤ)
    (hvalid : is_valid height width (r0 + dr0) (c0 + dc0) = true)
    (i : ℕ) (stack : List (ℤ × ℤ × List (ℤ × ℤ))) (m : Maze)
    (hinv : getCellZ m (r0 + dr0) (c0 + dc0) ≠ '#'
      ∨ ∃ ds, (r0, c0, ds) ∈ stack ∧ (dr0, dc0) ∈ ds) :
    getCellZ (carveLoop height width o i stack m).1 (r0 + dr0) (c0 + dc0) ≠ '#' := by
  revert hinv
  induction i, stack, m using carveLoop.induct height width o with
  | case1 i m =>
    intro hinv
    rw [carveLoop]
    rcases hinv with h | ⟨ds, hmem, _⟩
    · exact h
    · simp at hmem
  | case2 i a b stack m ih =>
    intro hinv
    rw [carveLoop]
    apply ih
    rcases hinv with h | ⟨ds, hmem, hd⟩
    · exact Or.inl h
    · rcases List.mem_cons.mp hmem with heq | hmem2
      · have hds : ds = [] := congrArg Prod.snd (congrArg Prod.snd heq)
        subst hds
        simp at hd
      · exact Or.inr ⟨ds, hmem2, hd⟩
  | case3 i r c dr dc ds stack m hguard ih =>
    intro hinv
    rw [carveLoop, if_pos hguard]
    apply ih
    rcases hinv with h | ⟨ds', hmem, hd⟩
    · left
      rcases getCellZ_setCellZ (setCellZ m (r + dr / 2) (c + dc / 2) ' ')
        (r + dr) (c + dc) (r0 + dr0) (c0 + dc0) ' ' with h2 | h2 <;>
        rcases getCellZ_setCellZ m (r + dr / 2) (c + dc / 2) (r0 + dr0) (c0 + dc0) ' '
          with h3 | h3 <;>
        simp [h2, h3, h] <;> decide
    · rcases List.mem_cons.mp hmem with heq | hmem2
      · have h1 : r0 = r := congrArg Prod.fst heq
        have h2 : c0 = c := congrArg Prod.fst (congrArg Prod.snd heq)
        have h3 : ds' = (dr, dc) :: ds := congrArg Prod.snd (congrArg Prod.snd heq)
        subst h1; subst h2; subst h3
        rcases List.mem_cons.mp hd with hdeq | hdtail
        · left
          have he1 : dr0 = dr := congrArg Prod.fst hdeq
          have he2 : dc0 = dc := congrArg Prod.snd hdeq
          subst he1; subst he2
          rw [open_after_double_setZ m _ _ _ _ hguard.2]
          decide
        · exact Or.inr ⟨ds, List.mem_cons_of_mem _ (List.mem_cons_self _ _), hdtail⟩
      · exact Or.inr ⟨ds', List.mem_cons_of_mem _ (List.mem_cons_of_mem _ hmem2), hd⟩
  | case4 i r c dr dc ds stack m hguard ih =>
    intro hinv
    rw [carveLoop, if_neg hguard]
    apply ih
    rcases hinv with h | ⟨ds', hmem, hd⟩
    · exact Or.inl h
    · rcases List.mem_cons.mp hmem with heq | hmem2
      · have h1 : r0 = r := congrArg Prod.fst heq
        have h2 : c0 = c := congrArg Prod.fst (congrArg Prod.snd heq)
        have h3 : ds' = (dr, dc) :: ds := congrArg Prod.snd (congrArg Prod.snd heq)
        subst h1; subst h2; subst h3
        rcases List.mem_cons.mp hd with hdeq | hdtail
        · left
          have he1 : dr0 = dr := congrArg Prod.fst hdeq
          have he2 : dc0 = dc := congrArg Prod.snd hdeq
          subst he1; subst he2
          intro hwall
          exact hguard ⟨hvalid, hwall⟩
        · exact Or.inr ⟨ds, List.mem_cons_self _ _, hdtail⟩
      · exact Or.inr ⟨ds', List.mem_cons_of_mem _ hmem2, hd⟩

/-! ### Maze shape -/

/-- The maze is a `height × width` grid of cells. -/
def mazeShape (height width : ℕ) (m : Maze) : Prop :=
  m.length = height ∧ ∀ r, r < height → (m.getD r []).length = width

theorem mazeShape_setCell (height width : ℕ) (m : Maze) (r c : ℕ) (ch : Char)
    (h : mazeShape height width m) : mazeShape height width (setCell m r c ch) := by
  obtain ⟨h1, h2⟩ := h
  constructor
  · simpa [setCell] using h1
  · intro r' hr'
    unfold setCell
    by_cases hrr : r = r'
    · subst hrr
      rw [getD_set_same _ _ _ _ (by omega)]
      rw [List.length_set]
      exact h2 r hr'
    · rw [getD_set_other _ _ _ hrr]
      exact h2 r' hr'

theorem mazeShape_setCellZ (height width : ℕ) (m : Maze) (r c : ℤ) (ch : Char)
    (h : mazeShape height width m) : mazeShape height width (setCellZ m r c ch) := by
  unfold setCellZ
  split
  · exact mazeShape_setCell height width m _ _ ch h
  · exact h

theorem mazeShape_carveLoop (height width : ℕ) (o : Oracle)
    (i : ℕ) (stack : List (ℤ × ℤ × List (ℤ × ℤ))) (m : Maze)
    (h : mazeShape height width m) :
    mazeShape height width (carveLoop height width o i stack m).1 := by
  induction i, stack, m using carveLoop.induct height width o with
  | case1 i m => rw [carveLoop]; exact h
  | case2 i a b stack m ih => rw [carveLoop]; exact ih h
  | case3 i r c dr dc ds stack m hguard ih =>
    rw [carveLoop, if_pos hguard]
    exact ih (mazeShape_setCellZ _ _ _ _ _ _ (mazeShape_setCellZ _ _ _ _ _ _ h))
  | case4 i r c dr dc ds stack m hguard ih =>
    rw [carveLoop, if_neg hguard]
    exact ih h

/-! ### MazeGenerator.generate (Server.py lines 47-127) -/

/-- One entry of `teleporter_coords[layer]`: the Python dict
`{'r': tr, 'c': tc, 'type': 'L' or 'l'}`. -/
structure Tele where
  r : ℕ
  c : ℕ
  ty : Char
deriving DecidableEq, Repr

/-- Result of `MazeGenerator.generate`, together with the generator fields it
fills in (`start_coords`, `end_coords`, `teleporter_coords`,
`all_open_spots_layer0`). -/
structure GenResult where
  mazes : MazeSet
  start_coords : ℕ × ℕ
  end_coords : ℕ × ℕ
  teleporter_coords : List (List Tele)
  all_open_spots_layer0 : List (ℕ × ℕ)
deriving Repr

theorem single_le_mapSum (f : α → ℕ) (l : List α) (d : α) :
    ∀ i : ℕ, i < l.length → f (l.getD i d) ≤ (l.map f).sum := by
  induction l with
  | nil => intro i hi; simp at hi
  | cons a as ih =>
    intro i hi
    cases i with
    | zero => simp
    | succ k =>
      have := ih k (by simpa using hi)
      simp only [List.getD_cons_succ, List.map_cons, List.sum_cons]
      omega

theorem pair_le_mapSum (f : α → ℕ) (l : List α) (d : α) :
    ∀ i j : ℕ, i < j → j < l.length →
      f (l.getD i d) + f (l.getD j d) ≤ (l.map f).sum := by
  induction l with
  | nil => intro i j _ hj; simp at hj
  | cons a as ih =>
    intro i j hij hj
    cases i with
    | zero =>
      cases j with
      | zero => omega
      | succ k =>
        have := single_le_mapSum f as d k (by simpa using hj)
        simp only [List.getD_cons_zero, List.getD_cons_succ, List.map_cons, List.sum_cons]
        omega
    | succ k1 =>
      cases j with
      | zero => omega
      | succ k2 =>
        have := ih k1 k2 (by omega) (by simpa using hj)
        simp only [List.getD_cons_succ, List.map_cons, List.sum_cons]
        omega

theorem one_le_countP_row (row : List Char) (c : ℕ) (hc : c < row.length)
    (h : row.getD c 'X' = ' ') : 1 ≤ row.countP (· == ' ') := by
  apply List.countP_pos.mpr
  refine ⟨' ', ?_, by simp⟩
  rw [List.getD_eq_getElem _ _ hc] at h
  exact h ▸ List.getElem_mem hc

theorem two_le_countP_row (row : List Char) :
    ∀ c1 c2 : ℕ, c1 < c2 → c2 < row.length →
      row.getD c1 'X' = ' ' → row.getD c2 'X' = ' ' →
      2 ≤ row.countP (· == ' ') := by
  induction row with
  | nil => intro c1 c2 _ h2; simp at h2
  | cons a as ih =>
    intro c1 c2 hlt h2 e1 e2
    cases c1 with
    | zero =>
      cases c2 with
      | zero => omega
      | succ k =>
        have ha : a = ' ' := by simpa using e1
        have h1 : 1 ≤ as.countP (· == ' ') :=
          one_le_countP_row as k (by simpa using h2) (by simpa using e2)
        have htrue : (a == ' ') = true := by simp [ha]
        simp only [List.countP_cons, htrue, if_true]
        omega
    | succ k1 =>
      cases c2 with
      | zero => omega
      | succ k2 =>
        have := ih k1 k2 (by omega) (by simpa using h2) (by simpa using e1)
          (by simpa using e2)
        simp only [List.countP_cons]
        omega

/-- Two distinct open cells witness a count of at least two. -/
theorem two_le_countCh (m : Maze) (r1 c1 r2 c2 : ℕ)
    (h1 : getCell m r1 c1 = ' ') (h2 : getCell m r2 c2 = ' ')
    (hne : ¬ (r1 = r2 ∧ c1 = c2)) : 2 ≤ countCh ' ' m := by
  obtain ⟨hr1, hc1⟩ := getCell_in_range (by rw [h1]; decide)
  obtain ⟨hr2, hc2⟩ := getCell_in_range (by rw [h2]; decide)
  unfold countCh
  by_cases hrr : r1 = r2
  · subst hrr
    have hcc : c1 ≠ c2 := fun h => hne ⟨rfl, h⟩
    have hcount : 2 ≤ ((m.getD r1 []).countP (· == ' ')) := by
      rcases Nat.lt_or_ge c1 c2 with hlt | hge
      · exact two_le_countP_row _ c1 c2 hlt hc2 h1 h2
      · exact two_le_countP_row _ c2 c1 (by omega) hc1 h2 h1
    calc 2 ≤ (m.getD r1 []).countP (· == ' ') := hcount
    _ ≤ (m.map fun row => row.countP (· == ' ')).sum := by
        have := single_le_mapSum (fun row => row.countP (· == ' ')) m [] r1 hr1
        simpa using this
  · have hone1 : 1 ≤ (m.getD r1 []).countP (· == ' ') := one_le_countP_row _ c1 hc1 h1
    have hone2 : 1 ≤ (m.getD r2 []).countP (· == ' ') := one_le_countP_row _ c2 hc2 h2
    rcases Nat.lt_or_ge r1 r2 with hlt | hge
    · have := pair_le_mapSum (fun row => row.countP (· == ' ')) m [] r1 r2 hlt hr2
      simp only at this
      omega
    · have := pair_le_mapSum (fun row => row.countP (· == ' ')) m [] r2 r1 (by omega) hr1
      simp only at this
      omega

/-- The row-major scan for open cells, e.g. Server.py lines 64-67: collects
every `(r, c)` with `maze[r][c] == ' '`. -/
def openSpots (height width : ℕ) (m : Maze) : List (ℕ × ℕ) :=
  (List.range height).flatMap fun r =>
    (List.range width).filterMap fun c =>
      if getCell m r c = ' ' then some (r, c) else none

/-- All-wall initial grid (Server.py line 54). -/
def initMaze (height width : ℕ) : Maze :=
  List.replicate height (List.replicate width '#')

theorem getCell_initMaze (height width r c : ℕ) (hr : r < height) (hc : c < width) :
    getCell (initMaze height width) r c = '#' := by
  unfold getCell initMaze
  have houter : (List.replicate height (List.replicate width '#')).getD r []
      = List.replicate width '#' := by
    rw [List.getD_eq_getElem _ _ (by simpa using hr), List.getElem_replicate]
  rw [houter, List.getD_eq_getElem _ _ (by simpa using hc), List.getElem_replicate]

theorem getCellZ_nonneg_eq (m : Maze) (r c : ℤ) (h0 : 0 ≤ r ∧ 0 ≤ c) :
    getCellZ m r c = getCell m r.toNat c.toNat := by
  unfold getCellZ
  rw [if_pos h0]

theorem getCellZ_setCellZ_self (m : Maze) (r c : ℤ) (w : Char)
    (h0 : 0 ≤ r ∧ 0 ≤ c) (hr : r.toNat < m.length)
    (hc : c.toNat < (m.getD r.toNat []).length) :
    getCellZ (setCellZ m r c w) r c = w := by
  unfold getCellZ setCellZ
  rw [if_pos h0, if_pos h0]
  exact getCell_setCell_same m _ _ w hr hc

theorem length_initMaze (height width : ℕ) : (initMaze height width).length = height := by
  simp [initMaze]

theorem row_initMaze (height width r : ℕ) (hr : r < height) :
    ((initMaze height width).getD r []).length = width := by
  unfold initMaze
  rw [List.getD_eq_getElem _ _ (by simpa using hr), List.getElem_replicate]
  simp

/-- The carving start cell is open in the carved maze. -/
theorem carve_path_root_open (height width : ℕ) (o : Oracle) (i : ℕ) (sr sc : ℤ)
    (h0 : 0 ≤ sr ∧ 0 ≤ sc) (hr : sr.toNat < height) (hc : sc.toNat < width) :
    getCellZ (carve_path height width o i sr sc (initMaze height width)).1 sr sc = ' ' := by
  unfold carve_path
  rcases carveLoop_getCell height width o sr sc (i + 1)
      [(sr, sc, permuteBy (o i) directions)]
      (setCellZ (initMaze height width) sr sc ' ') with h | h
  · rw [h]
    exact getCellZ_setCellZ_self _ _ _ _ h0 (by rw [length_initMaze]; exact hr)
      (by rw [row_initMaze height width _ hr]; exact hc)
  · exact h

/-- A valid two-step neighbor of the carving start cell is open in the
carved maze: carving either went there or found it already carved. -/
theorem carve_path_neighbor_open (height width : ℕ) (o : Oracle) (i : ℕ)
    (sr sc dr dc : ℤ) (hd : (dr, dc) ∈ directions)
    (hvalid : is_valid height width (sr + dr) (sc + dc) = true) :
    getCellZ (carve_path height width o i sr sc (initMaze height width)).1
      (sr + dr) (sc + dc) = ' ' := by
  have hbounds : 0 ≤ sr + dr ∧ sr + dr < (height : ℤ)
      ∧ 0 ≤ sc + dc ∧ sc + dc < (width : ℤ) := by
    simpa [is_valid, Bool.and_eq_true, decide_eq_true_eq, and_assoc] using hvalid
  unfold carve_path
  have hne := carveLoop_covers height width o sr sc dr dc hvalid (i + 1)
    [(sr, sc, permuteBy (o i) directions)] (setCellZ (initMaze height width) sr sc ' ')
    (Or.inr ⟨permuteBy (o i) directions, List.mem_cons_self _ _, mem_permuteBy _ _ _ hd⟩)
  rcases carveLoop_getCell height width o (sr + dr) (sc + dc) (i + 1)
      [(sr, sc, permuteBy (o i) directions)]
      (setCellZ (initMaze height width) sr sc ' ') with h | h
  · rw [h] at hne ⊢
    rcases getCellZ_setCellZ (initMaze height width) sr sc (sr + dr) (sc + dc) ' '
      with h2 | h2
    · exfalso
      apply hne
      rw [h2, getCellZ_nonneg_eq _ _ _ ⟨hbounds.1, hbounds.2.2.1⟩]
      exact getCell_initMaze height width _ _ (by omega) (by omega)
    · exact h2
  · exact h

theorem mazeShape_initMaze (height width : ℕ) :
    mazeShape height width (initMaze height width) := by
  constructor
  · simp [initMaze]
  · intro r hr
    unfold initMaze
    rw [List.getD_eq_getElem _ _ (by simpa [initMaze] using hr)]
    simp

/-- The per-layer carving loop of `generate` (Server.py lines 52-58):
build an all-wall grid, pick a random odd starting cell
(`random.randrange(1, dim, 2)`, here `1 + 2 * (value mod (dim-1)/2)`, which
for odd `dim ≥ 3` ranges over exactly the same odd coordinates), and carve.
Returns the layers in order plus the next oracle index. -/
def genLayers (height width : ℕ) (o : Oracle) : ℕ → ℕ → MazeSet × ℕ
  | 0, i => ([], i)
  | n + 1, i =>
    let sr : ℤ := 1 + 2 * (o i % ((height - 1) / 2) : ℕ)
    let sc : ℤ := 1 + 2 * (o (i + 1) % ((width - 1) / 2) : ℕ)
    let mi := carve_path height width o (i + 2) sr sc (initMaze height width)
    let rest := genLayers height width o n mi.2
    (mi.1 :: rest.1, rest.2)

theorem countP_replicate_ne (ch a : Char) (h : ¬ a = ch) :
    ∀ n, (List.replicate n a).countP (· == ch) = 0 := by
  intro n
  apply List.countP_eq_zero.mpr
  intro b hb
  rw [List.eq_of_mem_replicate hb]
  simpa using h

theorem countCh_initMaze (height width : ℕ) (ch : Char) (h : ch ≠ '#') :
    countCh ch (initMaze height width) = 0 := by
  unfold countCh initMaze
  rw [List.map_replicate, countP_replicate_ne ch '#' (fun hcon => h hcon.symm)]
  simp

/-- After carving from a start cell produced by `randrange(1, dim, 2)`, a
maze one of whose dimensions is at least 5 has at least two open cells. -/
theorem carve_path_two_opens (height width : ℕ) (o : Oracle) (i : ℕ) (sr sc : ℤ)
    (hr : 1 ≤ sr ∧ sr ≤ (height : ℤ) - 2) (hc : 1 ≤ sc ∧ sc ≤ (width : ℤ) - 2)
    (h5 : 5 ≤ width ∨ 5 ≤ height) :
    2 ≤ countCh ' ' (carve_path height width o i sr sc (initMaze height width)).1 := by
  have h0 : 0 ≤ sr ∧ 0 ≤ sc := ⟨by omega, by omega⟩
  have hroot : getCell (carve_path height width o i sr sc (initMaze height width)).1
      sr.toNat sc.toNat = ' ' := by
    have := carve_path_root_open height width o i sr sc h0 (by omega) (by omega)
    rwa [getCellZ_nonneg_eq _ _ _ h0] at this
  rcases h5 with h5w | h5h
  · by_cases hplus : sc + 2 < (width : ℤ)
    · have hvalid : is_valid height width (sr + 0) (sc + 2) = true := by
        simp only [is_valid, Bool.and_eq_true, decide_eq_true_eq]
        omega
      have hnb := carve_path_neighbor_open height width o i sr sc 0 2 (by decide) hvalid
      rw [getCellZ_nonneg_eq _ _ _ ⟨by omega, by omega⟩] at hnb
      refine two_le_countCh _ sr.toNat sc.toNat (sr + 0).toNat (sc + 2).toNat hroot hnb ?_
      intro hcon
      omega
    · have hvalid : is_valid height width (sr + 0) (sc + (-2)) = true := by
        simp only [is_valid, Bool.and_eq_true, decide_eq_true_eq]
        omega
      have hnb := carve_path_neighbor_open height width o i sr sc 0 (-2) (by decide) hvalid
      rw [getCellZ_nonneg_eq _ _ _ ⟨by omega, by omega⟩] at hnb
      refine two_le_countCh _ sr.toNat sc.toNat (sr + 0).toNat (sc + (-2)).toNat hroot hnb ?_
      intro hcon
      omega
  · by_cases hplus : sr + 2 < (height : ℤ)
    · have hvalid : is_valid height width (sr + 2) (sc + 0) = true := by
        simp only [is_valid, Bool.and_eq_true, decide_eq_true_eq]
        omega
      have hnb := carve_path_neighbor_open height width o i sr sc 2 0 (by decide) hvalid
      rw [getCellZ_nonneg_eq _ _ _ ⟨by omega, by omega⟩] at hnb
      refine two_le_countCh _ sr.toNat sc.toNat (sr + 2).toNat (sc + 0).toNat hroot hnb ?_
      intro hcon
      omega
    · have hvalid : is_valid height width (sr + (-2)) (sc + 0) = true := by
        simp only [is_valid, Bool.and_eq_true, decide_eq_true_eq]
        omega
      have hnb := carve_path_neighbor_open height width o i sr sc (-2) 0 (by decide) hvalid
      rw [getCellZ_nonneg_eq _ _ _ ⟨by omega, by omega⟩] at hnb
      refine two_le_countCh _ sr.toNat sc.toNat (sr + (-2)).toNat (sc + 0).toNat hroot hnb ?_
      intro hcon
      omega

theorem mazeShape_carve_path (height width : ℕ) (o : Oracle) (i : ℕ) (sr sc : ℤ) :
    mazeShape height width
      (carve_path height width o i sr sc (initMaze height width)).1 := by
  unfold carve_path
  exact mazeShape_carveLoop _ _ _ _ _ _
    (mazeShape_setCellZ _ _ _ _ _ _ (mazeShape_initMaze height width))

theorem countCh_carve_path_zero (height width : ℕ) (o : Oracle) (i : ℕ) (sr sc : ℤ)
    (ch : Char) (hh : ch ≠ '#') (hs : ch ≠ ' ') :
    countCh ch (carve_path height width o i sr sc (initMaze height width)).1 = 0 := by
  unfold carve_path
  have h1 := carveLoop_countCh_le height width o ch hs (i + 1)
    [(sr, sc, permuteBy (o i) directions)] (setCellZ (initMaze height width) sr sc ' ')
  have h2 := countCh_setCellZ_le ch (initMaze height width) sr sc ' '
    (fun h => hs h.symm)
  have h3 := countCh_initMaze height width ch hh
  omega

/-- The common placement step (Server.py lines 64-76, 80-93, 100-111,
114-125): scan a layer for open cells; if any exist, relabel a randomly
chosen one with `ch` and report its coordinates, otherwise log and leave the
maze set unchanged. -/
def placeLabel (height width : ℕ) (o : Oracle) (i : ℕ) (ms : MazeSet) (l : ℕ)
    (ch : Char) : MazeSet × Option (ℕ × ℕ) × ℕ :=
  let m := ms.getD l []
  let opens := openSpots height width m
  if opens.isEmpty then (ms, none, i)
  else
    let p := choiceBy (o i) opens (0, 0)
    (ms.set l (setCell m p.1 p.2 ch), some p, i + 1)

theorem mem_openSpots (height width : ℕ) (m : Maze) (r c : ℕ)
    (hr : r < height) (hc : c < width) (h : getCell m r c = ' ') :
    (r, c) ∈ openSpots height width m := by
  unfold openSpots
  apply List.mem_flatMap.mpr
  refine ⟨r, List.mem_range.mpr hr, ?_⟩
  apply List.mem_filterMap.mpr
  refine ⟨c, List.mem_range.mpr hc, ?_⟩
  rw [if_pos h]

theorem openSpots_mem (height width : ℕ) (m : Maze) (p : ℕ × ℕ)
    (hp : p ∈ openSpots height width m) :
    getCell m p.1 p.2 = ' ' ∧ p.1 < height ∧ p.2 < width := by
  unfold openSpots at hp
  obtain ⟨r, hr, hmem⟩ := List.mem_flatMap.mp hp
  obtain ⟨c, hc, heq⟩ := List.mem_filterMap.mp hmem
  by_cases hcell : getCell m r c = ' '
  · rw [if_pos hcell] at heq
    have hpc : (r, c) = p := by injection heq
    subst hpc
    exact ⟨hcell, List.mem_range.mp hr, List.mem_range.mp hc⟩
  · rw [if_neg hcell] at heq
    cases heq

theorem exists_cell_of_countCh (ch : Char) (m : Maze) (h : 1 ≤ countCh ch m) :
    ∃ r c, r < m.length ∧ c < (m.getD r []).length ∧ getCell m r c = ch := by
  unfold countCh at h
  induction m with
  | nil => simp at h
  | cons a as ih =>
    simp only [List.map_cons, List.sum_cons] at h
    by_cases ha : 1 ≤ a.countP (· == ch)
    · obtain ⟨x, hx, hxp⟩ := List.countP_pos_iff.mp (by omega : 0 < a.countP (· == ch))
      obtain ⟨j, hj, hjx⟩ := List.mem_iff_getElem.mp hx
      refine ⟨0, j, by simp, by simpa using hj, ?_⟩
      unfold getCell
      rw [List.getD_cons_zero, List.getD_eq_getElem _ _ hj, hjx]
      simpa using hxp
    · obtain ⟨r, c, hr, hc, hcell⟩ := ih (by omega)
      refine ⟨r + 1, c, by simpa using hr, ?_, ?_⟩
      · simpa [List.getD_cons_succ] using hc
      · simpa [getCell, List.getD_cons_succ] using hcell

theorem openSpots_ne_nil (height width : ℕ) (m : Maze)
    (hshape : mazeShape height width m) (h : 1 ≤ countCh ' ' m) :
    ¬ (openSpots height width m).isEmpty = true := by
  obtain ⟨r, c, hr, hc, hcell⟩ := exists_cell_of_countCh ' ' m h
  have hmem := mem_openSpots height width m r c (hshape.1 ▸ hr)
    (by rw [← hshape.2 r (hshape.1 ▸ hr)]; exact hc) hcell
  intro hcon
  rw [List.isEmpty_iff] at hcon
  rw [hcon] at hmem
  simp at hmem

theorem choiceBy_mem (k : ℕ) (l : List α) (d : α) (h : ¬ l.isEmpty = true) :
    choiceBy k l d ∈ l := by
  have hlen : 0 < l.length := by
    cases l
    · simp at h
    · simp
  have hi : k % l.length < l.length := Nat.mod_lt _ hlen
  unfold choiceBy
  rw [List.getD_eq_getElem _ _ hi]
  exact List.getElem_mem hi

/-- Full behavior of one successful placement: exactly one `ch` appears, one
open cell disappears, everything else is untouched. -/
theorem placeLabel_spec (height width : ℕ) (o : Oracle) (i : ℕ) (ms : MazeSet)
    (l : ℕ) (ch : Char) (hl : l < ms.length)
    (hshape : mazeShape height width (ms.getD l []))
    (hopen : 1 ≤ countCh ' ' (ms.getD l [])) (hch : ch ≠ ' ') :
    countCh ch ((placeLabel height width o i ms l ch).1.getD l [])
        = countCh ch (ms.getD l []) + 1
      ∧ countCh ' ' ((placeLabel height width o i ms l ch).1.getD l []) + 1
        = countCh ' ' (ms.getD l [])
      ∧ (∀ ch', ch' ≠ ch → ch' ≠ ' ' →
          countCh ch' ((placeLabel height width o i ms l ch).1.getD l [])
            = countCh ch' (ms.getD l []))
      ∧ (∀ l', l' ≠ l →
          (placeLabel height width o i ms l ch).1.getD l' [] = ms.getD l' [])
      ∧ (placeLabel height width o i ms l ch).1.length = ms.length
      ∧ mazeShape height width ((placeLabel height width o i ms l ch).1.getD l []) := by
  have hne := openSpots_ne_nil height width (ms.getD l []) hshape hopen
  have hmem := choiceBy_mem (o i) (openSpots height width (ms.getD l [])) (0, 0) hne
  obtain ⟨hcell, hrh, hcw⟩ := openSpots_mem height width (ms.getD l []) _ hmem
  set p := choiceBy (o i) (openSpots height width (ms.getD l [])) (0, 0) with hp
  have hrin : p.1 < (ms.getD l []).length := by rw [hshape.1]; exact hrh
  have hcin : p.2 < ((ms.getD l []).getD p.1 []).length := by
    rw [hshape.2 p.1 hrh]; exact hcw
  have hres : (placeLabel height width o i ms l ch).1
      = ms.set l (setCell (ms.getD l []) p.1 p.2 ch) := by
    unfold placeLabel
    rw [if_neg hne]
  have hget : (placeLabel height width o i ms l ch).1.getD l []
      = setCell (ms.getD l []) p.1 p.2 ch := by
    rw [hres]
    exact getD_set_same _ _ _ _ hl
  have hbal := countCh_setCell_balance ch (ms.getD l []) p.1 p.2 ch hrin hcin
  have hbalSp := countCh_setCell_balance ' ' (ms.getD l []) p.1 p.2 ch hrin hcin
  have hcellT : (getCell (ms.getD l []) p.1 p.2 == ch) = false := by
    rw [hcell]
    simpa using fun hcon => hch hcon.symm
  have hcellS : (getCell (ms.getD l []) p.1 p.2 == ' ') = true := by
    rw [hcell]; simp
  have hchch : (ch == ch) = true := by simp
  have hchsp : (ch == ' ') = false := by simpa using hch
  refine ⟨?_, ?_, ?_, ?_, ?_, ?_⟩
  · rw [hget]
    rw [hcellT, hchch, if_neg Bool.false_ne_true, if_pos rfl] at hbal
    omega
  · rw [hget]
    rw [hcellS, hchsp, if_pos rfl, if_neg Bool.false_ne_true] at hbalSp
    omega
  · intro ch' hc1 hc2
    rw [hget]
    have hb := countCh_setCell_balance ch' (ms.getD l []) p.1 p.2 ch hrin hcin
    have e1 : (getCell (ms.getD l []) p.1 p.2 == ch') = false := by
      rw [hcell]
      simpa using fun hcon => hc2 hcon.symm
    have e2 : (ch == ch') = false := by
      simpa using fun hcon => hc1 hcon.symm
    rw [e1, e2, if_neg Bool.false_ne_true] at hb
    omega
  · intro l' hl'
    rw [hres]
    exact getD_set_other _ _ _ (fun hcon => hl' hcon.symm)
  · rw [hres]
    simp
  · rw [hget]
    exact mazeShape_setCell height width _ _ _ _ hshape

/-- One iteration of the teleporter placement loop (Server.py lines 97-125):
on every layer but the last place an `'L'`, on every layer but the first
place an `'l'`, recording the placed teleporters for the layer. -/
def teleStep (height width num_layers : ℕ) (o : Oracle)
    (st : MazeSet × List (List Tele) × ℕ) (l : ℕ) : MazeSet × List (List Tele) × ℕ :=
  let up :=
    if l < num_layers - 1 then placeLabel height width o st.2.2 st.1 l 'L'
    else (st.1, none, st.2.2)
  let down :=
    if 0 < l then placeLabel height width o up.2.2 up.1 l 'l'
    else (up.1, none, up.2.2)
  let entry :=
    (match up.2.1 with
     | some p => [Tele.mk p.1 p.2 'L']
     | none => []) ++
    (match down.2.1 with
     | some p => [Tele.mk p.1 p.2 'l']
     | none => [])
  (down.1, st.2.1 ++ [entry], down.2.2)

theorem genLayers_length (height width : ℕ) (o : Oracle) :
    ∀ n i, (genLayers height width o n i).1.length = n := by
  intro n
  induction n with
  | zero => intro i; rfl
  | succ k ih =>
    intro i
    simp only [genLayers, List.length_cons]
    rw [ih]

/-- Every layer produced by the per-layer carving loop is a well-shaped
grid with at least two open cells and no label characters. -/
theorem genLayers_facts (height width : ℕ) (o : Oracle)
    (hodd_h : height % 2 = 1) (hodd_w : width % 2 = 1)
    (h3h : 3 ≤ height) (h3w : 3 ≤ width) (h5 : 5 ≤ width ∨ 5 ≤ height) :
    ∀ n i l, l < n →
      mazeShape height width ((genLayers height width o n i).1.getD l [])
        ∧ 2 ≤ countCh ' ' ((genLayers height width o n i).1.getD l [])
        ∧ ∀ ch, ch ≠ '#' → ch ≠ ' ' →
            countCh ch ((genLayers height width o n i).1.getD l []) = 0 := by
  intro n
  induction n with
  | zero => intro i l hl; omega
  | succ k ih =>
    intro i l hl
    cases l with
    | zero =>
      simp only [genLayers, List.getD_cons_zero]
      have hmodh := Nat.mod_lt (o i) (show 0 < (height - 1) / 2 by omega)
      have hmodw := Nat.mod_lt (o (i + 1)) (show 0 < (width - 1) / 2 by omega)
      refine ⟨mazeShape_carve_path _ _ _ _ _ _, ?_, ?_⟩
      · refine carve_path_two_opens height width o (i + 2) _ _ ⟨?_, ?_⟩ ⟨?_, ?_⟩ h5
        · omega
        · omega
        · omega
        · omega
      · intro ch hh hs
        exact countCh_carve_path_zero _ _ _ _ _ _ ch hh hs
    | succ l' =>
      simp only [genLayers, List.getD_cons_succ]
      exact ih _ l' (by omega)

/-- Number of teleporter labels the placement loop must still be able to
place on layer `l` of an `L`-layer set. -/
def neededOpens (L l : ℕ) : ℕ :=
  (if l < L - 1 then 1 else 0) + (if 0 < l then 1 else 0)

/-- Invariant of the teleporter placement loop after processing layers
`0, …, j-1` of an `L`-layer set. -/
def TeleInv (height width L j : ℕ) (st : MazeSet × List (List Tele) × ℕ) : Prop :=
  st.1.length = L
    ∧ (∀ l, l < L → mazeShape height width (st.1.getD l []))
    ∧ (∀ l, l < L → countCh 'S' (st.1.getD l []) = if l = 0 then 1 else 0)
    ∧ (∀ l, l < L → countCh 'E' (st.1.getD l []) = if l = L - 1 then 1 else 0)
    ∧ (∀ l, l < L → countCh 'L' (st.1.getD l [])
        = if l < j ∧ l < L - 1 then 1 else 0)
    ∧ (∀ l, l < L → countCh 'l' (st.1.getD l []) = if l < j ∧ 0 < l then 1 else 0)
    ∧ (∀ l, l < L → j ≤ l → neededOpens L l ≤ countCh ' ' (st.1.getD l []))

theorem teleStep_inv (height width L : ℕ) (o : Oracle) (j : ℕ)
    (st : MazeSet × List (List Tele) × ℕ) (hj : j < L)
    (hinv : TeleInv height width L j st) :
    TeleInv height width L (j + 1) (teleStep height width L o st j) := by
  obtain ⟨hlen, hshape, hS, hE, hL0, hl0, hop⟩ := hinv
  have hneed := hop j hj (le_refl j)
  by_cases hL : j < L - 1
  · have hop1 : 1 ≤ countCh ' ' (st.1.getD j []) := by
      unfold neededOpens at hneed
      rw [if_pos hL] at hneed
      omega
    obtain ⟨u1, u2, u3, u4, u5, u6⟩ := placeLabel_spec height width o st.2.2 st.1 j 'L'
      (by omega) (hshape j hj) hop1 (by decide)
    by_cases h0 : 0 < j
    · -- both placements happen
      have hop2 : 1 ≤ countCh ' '
          ((placeLabel height width o st.2.2 st.1 j 'L').1.getD j []) := by
        unfold neededOpens at hneed
        rw [if_pos hL, if_pos h0] at hneed
        omega
      obtain ⟨v1, v2, v3, v4, v5, v6⟩ := placeLabel_spec height width o
        (placeLabel height width o st.2.2 st.1 j 'L').2.2
        (placeLabel height width o st.2.2 st.1 j 'L').1 j 'l'
        (by omega) u6 hop2 (by decide)
      have hres : (teleStep height width L o st j).1
          = (placeLabel height width o
              (placeLabel height width o st.2.2 st.1 j 'L').2.2
              (placeLabel height width o st.2.2 st.1 j 'L').1 j 'l').1 := by
        simp only [teleStep, if_pos hL, if_pos h0]
      have hsame : ∀ l, l ≠ j → (teleStep height width L o st j).1.getD l []
          = st.1.getD l [] := by
        intro l hlj
        rw [hres, v4 l hlj, u4 l hlj]
      refine ⟨by rw [hres]; omega, ?_, ?_, ?_, ?_, ?_, ?_⟩
      · intro l hl
        by_cases hlj : l = j
        · rw [hlj, hres]; exact v6
        · rw [hsame l hlj]; exact hshape l hl
      · intro l hl
        by_cases hlj : l = j
        · rw [hlj, hres, v3 'S' (by decide) (by decide),
            u3 'S' (by decide) (by decide)]
          exact hS j hj
        · rw [hsame l hlj]; exact hS l hl
      · intro l hl
        by_cases hlj : l = j
        · rw [hlj, hres, v3 'E' (by decide) (by decide),
            u3 'E' (by decide) (by decide)]
          exact hE j hj
        · rw [hsame l hlj]; exact hE l hl
      · intro l hl
        by_cases hlj : l = j
        · rw [hlj, hres, v3 'L' (by decide) (by decide), u1, hL0 j hj,
            if_neg (by omega), if_pos (by omega)]
        · rw [hsame l hlj, hL0 l hl]
          by_cases hcase : l < j ∧ l < L - 1
          · rw [if_pos hcase, if_pos ⟨by omega, hcase.2⟩]
          · rw [if_neg hcase, if_neg (by omega)]
      · intro l hl
        by_cases hlj : l = j
        · rw [hlj, hres, v1, u3 'l' (by decide) (by decide), hl0 j hj,
            if_neg (by omega), if_pos (by omega)]
        · rw [hsame l hlj, hl0 l hl]
          by_cases hcase : l < j ∧ 0 < l
          · rw [if_pos hcase, if_pos ⟨by omega, hcase.2⟩]
          · rw [if_neg hcase, if_neg (by omega)]
      · intro l hl hjl
        rw [hsame l (by omega)]
        exact hop l hl (by omega)
    · -- only the 'L' placement happens (j = 0)
      have hres : (teleStep height width L o st j).1
          = (placeLabel height width o st.2.2 st.1 j 'L').1 := by
        simp only [teleStep, if_pos hL, if_neg h0]
      have hsame : ∀ l, l ≠ j → (teleStep height width L o st j).1.getD l []
          = st.1.getD l [] := by
        intro l hlj
        rw [hres, u4 l hlj]
      refine ⟨by rw [hres]; omega, ?_, ?_, ?_, ?_, ?_, ?_⟩
      · intro l hl
        by_cases hlj : l = j
        · rw [hlj, hres]; exact u6
        · rw [hsame l hlj]; exact hshape l hl
      · intro l hl
        by_cases hlj : l = j
        · rw [hlj, hres, u3 'S' (by decide) (by decide)]
          exact hS j hj
        · rw [hsame l hlj]; exact hS l hl
      · intro l hl
        by_cases hlj : l = j
        · rw [hlj, hres, u3 'E' (by decide) (by decide)]
          exact hE j hj
        · rw [hsame l hlj]; exact hE l hl
      · intro l hl
        by_cases hlj : l = j
        · rw [hlj, hres, u1, hL0 j hj, if_neg (by omega), if_pos (by omega)]
        · rw [hsame l hlj, hL0 l hl]
          by_cases hcase : l < j ∧ l < L - 1
          · rw [if_pos hcase, if_pos ⟨by omega, hcase.2⟩]
          · rw [if_neg hcase, if_neg (by omega)]
      · intro l hl
        by_cases hlj : l = j
        · rw [hlj, hres, u3 'l' (by decide) (by decide), hl0 j hj,
            if_neg (by omega), if_neg (by omega)]
        · rw [hsame l hlj, hl0 l hl]
          by_cases hcase : l < j ∧ 0 < l
          · rw [if_pos hcase, if_pos ⟨by omega, hcase.2⟩]
          · rw [if_neg hcase, if_neg (by omega)]
      · intro l hl hjl
        rw [hsame l (by omega)]
        exact hop l hl (by omega)
  · by_cases h0 : 0 < j
    · -- only the 'l' placement happens (j = L-1 > 0)
      have hop1 : 1 ≤ countCh ' ' (st.1.getD j []) := by
        unfold neededOpens at hneed
        rw [if_neg hL, if_pos h0] at hneed
        omega
      obtain ⟨u1, u2, u3, u4, u5, u6⟩ := placeLabel_spec height width o st.2.2 st.1 j 'l'
        (by omega) (hshape j hj) hop1 (by decide)
      have hres : (teleStep height width L o st j).1
          = (placeLabel height width o st.2.2 st.1 j 'l').1 := by
        simp only [teleStep, if_neg hL, if_pos h0]
      have hsame : ∀ l, l ≠ j → (teleStep height width L o st j).1.getD l []
          = st.1.getD l [] := by
        intro l hlj
        rw [hres, u4 l hlj]
      refine ⟨by rw [hres]; omega, ?_, ?_, ?_, ?_, ?_, ?_⟩
      · intro l hl
        by_cases hlj : l = j
        · rw [hlj, hres]; exact u6
        · rw [hsame l hlj]; exact hshape l hl
      · intro l hl
        by_cases hlj : l = j
        · rw [hlj, hres, u3 'S' (by decide) (by decide)]
          exact hS j hj
        · rw [hsame l hlj]; exact hS l hl
      · intro l hl
        by_cases hlj : l = j
        · rw [hlj, hres, u3 'E' (by decide) (by decide)]
          exact hE j hj
        · rw [hsame l hlj]; exact hE l hl
      · intro l hl
        by_cases hlj : l = j
        · rw [hlj, hres, u3 'L' (by decide) (by decide), hL0 j hj,
            if_neg (by omega), if_neg (by omega)]
        · rw [hsame l hlj, hL0 l hl]
          by_cases hcase : l < j ∧ l < L - 1
          · rw [if_pos hcase, if_pos ⟨by omega, hcase.2⟩]
          · rw [if_neg hcase, if_neg (by omega)]
      · intro l hl
        by_cases hlj : l = j
        · rw [hlj, hres, u1, hl0 j hj, if_neg (by omega), if_pos (by omega)]
        · rw [hsame l hlj, hl0 l hl]
          by_cases hcase : l < j ∧ 0 < l
          · rw [if_pos hcase, if_pos ⟨by omega, hcase.2⟩]
          · rw [if_neg hcase, if_neg (by omega)]
      · intro l hl hjl
        rw [hsame l (by omega)]
        exact hop l hl (by omega)
    · -- neither placement (single layer: j = 0 = L-1)
      have hres : (teleStep height width L o st j).1 = st.1 := by
        simp only [teleStep, if_neg hL, if_neg h0]
      refine ⟨by rw [hres]; omega, ?_, ?_, ?_, ?_, ?_, ?_⟩
      · intro l hl; rw [hres]; exact hshape l hl
      · intro l hl; rw [hres]; exact hS l hl
      · intro l hl; rw [hres]; exact hE l hl
      · intro l hl
        rw [hres, hL0 l hl]
        by_cases hcase : l < j ∧ l < L - 1
        · rw [if_pos hcase, if_pos ⟨by omega, hcase.2⟩]
        · rw [if_neg hcase, if_neg (by omega)]
      · intro l hl
        rw [hres, hl0 l hl]
        by_cases hcase : l < j ∧ 0 < l
        · rw [if_pos hcase, if_pos ⟨by omega, hcase.2⟩]
        · rw [if_neg hcase, if_neg (by omega)]
      · intro l hl hjl
        rw [hres]
        exact hop l hl (by omega)

/-- The odd-rounding of `MazeGenerator.__init__` (Server.py lines 15-16):
even dimensions are incremented by one. -/
def oddRound (n : ℕ) : ℕ := if n % 2 = 1 then n else n + 1

theorem oddRound_odd (n : ℕ) : oddRound n % 2 = 1 := by
  unfold oddRound
  split <;> omega

theorem mapSum_zero (f : α → ℕ) (l : List α) (d : α)
    (h : ∀ i, i < l.length → f (l.getD i d) = 0) : (l.map f).sum = 0 := by
  induction l with
  | nil => rfl
  | cons a as ih =>
    simp only [List.map_cons, List.sum_cons]
    rw [ih fun i hi => by simpa [List.getD_cons_succ] using h (i + 1) (by simpa using hi)]
    have := h 0 (by simp)
    simpa [List.getD_cons_zero] using this

theorem mapSum_single (f : α → ℕ) (l : List α) (d : α) (i0 : ℕ) (hi : i0 < l.length)
    (hval : ∀ i, i < l.length → f (l.getD i d) = if i = i0 then 1 else 0) :
    (l.map f).sum = 1 := by
  induction l generalizing i0 with
  | nil => simp at hi
  | cons a as ih =>
    simp only [List.map_cons, List.sum_cons]
    cases i0 with
    | zero =>
      have ha : f a = 1 := by simpa [List.getD_cons_zero] using hval 0 (by simp)
      have hrest : (as.map f).sum = 0 := by
        apply mapSum_zero
        intro i hilen
        have := hval (i + 1) (by simpa using hilen)
        simpa [List.getD_cons_succ] using this
      omega
    | succ k =>
      have ha : f a = 0 := by simpa [List.getD_cons_zero] using hval 0 (by simp)
      have hrest : (as.map f).sum = 1 := by
        apply ih k (by simpa using hi)
        intro i hilen
        have := hval (i + 1) (by simpa using hilen)
        simpa [List.getD_cons_succ] using this
      omega

/-- The placement counts the specification claims for a generated maze set:
exactly one Start in the whole set, on layer 0; exactly one End, on the last
layer; exactly one UpTeleporter on every non-last layer; exactly one
DownTeleporter on every non-first layer. -/
def mazeSetCountsOK (ms : MazeSet) (L : ℕ) : Prop :=
  countChSet 'S' ms = 1 ∧ countCh 'S' (ms.getD 0 []) = 1
    ∧ countChSet 'E' ms = 1 ∧ countCh 'E' (ms.getD (L - 1) []) = 1
    ∧ (∀ l, l < L → l ≠ L - 1 → countCh 'L' (ms.getD l []) = 1)
    ∧ (∀ l, l < L → l ≠ 0 → countCh 'l' (ms.getD l []) = 1)

instance mazeSetCountsOK_dec (ms : MazeSet) (L : ℕ) :
    Decidable (mazeSetCountsOK ms L) := by
  unfold mazeSetCountsOK
  infer_instance

namespace MazeGenerator

/-- `MazeGenerator.generate` (Server.py lines 47-127), for a generator
constructed with the given raw `width`, `height` and `num_layers` (the
constructor rounds even dimensions up to the next odd value).  The oracle
supplies every random draw. -/
def generate (width0 height0 num_layers : ℕ) (o : Oracle) : GenResult :=
  let width := oddRound width0
  let height := oddRound height0
  let g1 := genLayers height width o num_layers 0
  let mazes := g1.1
  -- 'S' on layer 0 (fallback coordinates (1,1) when no open spot exists)
  let opens0 := openSpots height width (mazes.getD 0 [])
  let pS := placeLabel height width o g1.2 mazes 0 'S'
  let start_coords := (pS.2.1).getD (1, 1)
  -- 'E' on the last layer
  let pE := placeLabel height width o pS.2.2 pS.1 (num_layers - 1) 'E'
  let end_coords := (pE.2.1).getD (1, 1)
  -- teleporters
  let t := (List.range num_layers).foldl (teleStep height width num_layers o)
    (pE.1, [], pE.2.2)
  { mazes := t.1
    start_coords := start_coords
    end_coords := end_coords
    teleporter_coords := t.2.1
    all_open_spots_layer0 := opens0 }

end MazeGenerator

/-- Main counting theorem for the generator: for rounded dimensions at least
3 with one dimension at least 5, every oracle produces a maze set with the
claimed start/end/teleporter counts. -/
theorem generate_counts (width0 height0 L : ℕ) (o : Oracle)
    (h3w : 3 ≤ oddRound width0) (h3h : 3 ≤ oddRound height0)
    (h5 : 5 ≤ oddRound width0 ∨ 5 ≤ oddRound height0) (hL : 1 ≤ L) :
    mazeSetCountsOK (MazeGenerator.generate width0 height0 L o).mazes L := by
  set w := oddRound width0 with hw
  set h := oddRound height0 with hh
  have hodd_w : w % 2 = 1 := oddRound_odd _
  have hodd_h : h % 2 = 1 := oddRound_odd _
  have hmz : (MazeGenerator.generate width0 height0 L o).mazes
      = ((List.range L).foldl (teleStep h w L o)
          ((placeLabel h w o
              (placeLabel h w o (genLayers h w o L 0).2 (genLayers h w o L 0).1 0 'S').2.2
              (placeLabel h w o (genLayers h w o L 0).2 (genLayers h w o L 0).1 0 'S').1
              (L - 1) 'E').1,
            [],
            (placeLabel h w o
              (placeLabel h w o (genLayers h w o L 0).2 (genLayers h w o L 0).1 0 'S').2.2
              (placeLabel h w o (genLayers h w o L 0).2 (genLayers h w o L 0).1 0 'S').1
              (L - 1) 'E').2.2)).1 := rfl
  rw [hmz]
  set G := genLayers h w o L 0 with hG
  have hGlen : G.1.length = L := genLayers_length h w o L 0
  have hGfacts := genLayers_facts h w o hodd_h hodd_w h3h h3w h5 L 0
  rw [← hG] at hGfacts
  set pS := placeLabel h w o G.2 G.1 0 'S' with hpS
  obtain ⟨s1, s2, s3, s4, s5, s6⟩ := placeLabel_spec h w o G.2 G.1 0 'S'
    (by omega) (hGfacts 0 (by omega)).1
    (by have := (hGfacts 0 (by omega)).2.1; omega) (by decide)
  rw [← hpS] at s1 s2 s3 s4 s5 s6
  have hS1 : ∀ l, l < L → countCh 'S' (pS.1.getD l []) = if l = 0 then 1 else 0 := by
    intro l hl
    by_cases hl0 : l = 0
    · subst hl0
      rw [if_pos rfl, s1, (hGfacts 0 (by omega)).2.2 'S' (by decide) (by decide)]
    · rw [if_neg hl0, s4 l hl0, (hGfacts l hl).2.2 'S' (by decide) (by decide)]
  have hothers1 : ∀ ch, ch ≠ 'S' → ch ≠ '#' → ch ≠ ' ' → ∀ l, l < L →
      countCh ch (pS.1.getD l []) = 0 := by
    intro ch hch1 hch2 hch3 l hl
    by_cases hl0 : l = 0
    · subst hl0
      rw [s3 ch hch1 hch3, (hGfacts 0 (by omega)).2.2 ch hch2 hch3]
    · rw [s4 l hl0, (hGfacts l hl).2.2 ch hch2 hch3]
  have hshape1 : ∀ l, l < L → mazeShape h w (pS.1.getD l []) := by
    intro l hl
    by_cases hl0 : l = 0
    · subst hl0; exact s6
    · rw [s4 l hl0]; exact (hGfacts l hl).1
  have hopens1 : ∀ l, l < L →
      countCh ' ' (pS.1.getD l [])
        = if l = 0 then countCh ' ' (G.1.getD 0 []) - 1
          else countCh ' ' (G.1.getD l []) := by
    intro l hl
    by_cases hl0 : l = 0
    · subst hl0; rw [if_pos rfl]; omega
    · rw [if_neg hl0, s4 l hl0]
  have hlen1 : pS.1.length = L := by omega
  have hopE : 1 ≤ countCh ' ' (pS.1.getD (L - 1) []) := by
    have hv := hopens1 (L - 1) (by omega)
    by_cases hL1 : L = 1
    · rw [hv, if_pos (by omega)]
      have := (hGfacts 0 (by omega)).2.1
      omega
    · rw [hv, if_neg (by omega)]
      have := (hGfacts (L - 1) (by omega)).2.1
      omega
  set pE := placeLabel h w o pS.2.2 pS.1 (L - 1) 'E' with hpE
  obtain ⟨e1, e2, e3, e4, e5, e6⟩ := placeLabel_spec h w o pS.2.2 pS.1 (L - 1) 'E'
    (by omega) (hshape1 (L - 1) (by omega)) hopE (by decide)
  rw [← hpE] at e1 e2 e3 e4 e5 e6
  have hInv0 : TeleInv h w L 0 (pE.1, [], pE.2.2) := by
    refine ⟨?_, ?_, ?_, ?_, ?_, ?_, ?_⟩
    · show pE.1.length = L
      omega
    · intro l hl
      show mazeShape h w (pE.1.getD l [])
      by_cases hle : l = L - 1
      · rw [hle]; exact e6
      · rw [e4 l hle]; exact hshape1 l hl
    · intro l hl
      show countCh 'S' (pE.1.getD l []) = if l = 0 then 1 else 0
      by_cases hle : l = L - 1
      · rw [hle, e3 'S' (by decide) (by decide)]
        have := hS1 (L - 1) (by omega)
        rw [this, ← hle]
      · rw [e4 l hle]; exact hS1 l hl
    · intro l hl
      show countCh 'E' (pE.1.getD l []) = if l = L - 1 then 1 else 0
      by_cases hle : l = L - 1
      · rw [if_pos hle, hle, e1,
          hothers1 'E' (by decide) (by decide) (by decide) (L - 1) (by omega)]
      · rw [if_neg hle, e4 l hle,
          hothers1 'E' (by decide) (by decide) (by decide) l hl]
    · intro l hl
      show countCh 'L' (pE.1.getD l []) = if l < 0 ∧ l < L - 1 then 1 else 0
      rw [if_neg (by omega)]
      by_cases hle : l = L - 1
      · rw [hle, e3 'L' (by decide) (by decide)]
        exact hothers1 'L' (by decide) (by decide) (by decide) (L - 1) (by omega)
      · rw [e4 l hle]
        exact hothers1 'L' (by decide) (by decide) (by decide) l hl
    · intro l hl
      show countCh 'l' (pE.1.getD l []) = if l < 0 ∧ 0 < l then 1 else 0
      rw [if_neg (by omega)]
      by_cases hle : l = L - 1
      · rw [hle, e3 'l' (by decide) (by decide)]
        exact hothers1 'l' (by decide) (by decide) (by decide) (L - 1) (by omega)
      · rw [e4 l hle]
        exact hothers1 'l' (by decide) (by decide) (by decide) l hl
    · intro l hl _
      show neededOpens L l ≤ countCh ' ' (pE.1.getD l [])
      have hn0 := (hGfacts 0 (by omega)).2.1
      have hnl := (hGfacts l hl).2.1
      unfold neededOpens
      by_cases hle : l = L - 1
      · have he2' := e2
        have hv := hopens1 (L - 1) (by omega)
        rw [hv] at he2'
        rw [hle]
        by_cases hL1 : L = 1
        · rw [if_pos (by omega)] at he2'
          rw [if_neg (by omega), if_neg (by omega)]
          omega
        · rw [if_neg (by omega)] at he2'
          have := (hGfacts (L - 1) (by omega)).2.1
          rw [if_neg (by omega), if_pos (by omega)]
          omega
      · rw [e4 l hle, hopens1 l hl]
        by_cases hl0 : l = 0
        · rw [hl0, if_pos rfl, if_pos (by omega), if_neg (by omega)]
          omega
        · rw [if_neg hl0, if_pos (by omega)]
          have hbound : (if 0 < l then 1 else 0) ≤ 1 := by split <;> omega
          omega
  have hfold : ∀ j, j ≤ L →
      TeleInv h w L j ((List.range j).foldl (teleStep h w L o) (pE.1, [], pE.2.2)) := by
    intro j
    induction j with
    | zero => intro _; exact hInv0
    | succ k ih =>
      intro hk
      rw [List.range_succ, List.foldl_append, List.foldl_cons, List.foldl_nil]
      exact teleStep_inv h w L o k _ (by omega) (ih (by omega))
  obtain ⟨f1, f2, f3, f4, f5, f6, f7⟩ := hfold L (le_refl L)
  refine ⟨?_, ?_, ?_, ?_, ?_, ?_⟩
  · exact mapSum_single (countCh 'S') _ [] 0 (by omega)
      (fun i hi => f3 i (by omega))
  · have := f3 0 (by omega)
    simpa using this
  · exact mapSum_single (countCh 'E') _ [] (L - 1) (by omega)
      (fun i hi => f4 i (by omega))
  · have := f4 (L - 1) (by omega)
    simpa using this
  · intro l hl hle
    have := f5 l hl
    rw [if_pos ⟨by omega, by omega⟩] at this
    exact this
  · intro l hl hl0
    have := f6 l hl
    rw [if_pos ⟨by omega, by omega⟩] at this
    exact this

/-- If no direction from the start cell is in bounds, carving opens nothing
beyond the start cell. -/
theorem carveLoop_single_frame_stuck (height width : ℕ) (o : Oracle) (r c : ℤ)
    (m : Maze)
    (hinv : ∀ d, d ∈ directions → is_valid height width (r + d.1) (c + d.2) = false) :
    ∀ ds, (∀ d, d ∈ ds → d ∈ directions) → ∀ i,
      carveLoop height width o i [(r, c, ds)] m = (m, i) := by
  intro ds
  induction ds with
  | nil =>
    intro _ i
    rw [carveLoop, carveLoop]
  | cons d rest ih =>
    intro hsub i
    obtain ⟨dr, dc⟩ := d
    rw [carveLoop, if_neg]
    · exact ih (fun d hd => hsub d (List.mem_cons_of_mem _ hd)) i
    · intro hcon
      have := hinv (dr, dc) (hsub (dr, dc) (List.mem_cons_self _ _))
      rw [this] at hcon
      exact Bool.false_ne_true hcon.1

/-- On the degenerate 3×3 grid the only odd cell is (1,1): regardless of the
oracle the carve opens just that cell, and with a single layer the Start
label then exhausts the open cells, so no End label is ever written. -/
theorem generate_3x3_mazes :
    (MazeGenerator.generate 3 3 1 (fun _ => 0)).mazes
      = [[['#', '#', '#'], ['#', 'S', '#'], ['#', '#', '#']]] := by
  have hcp : carve_path 3 3 (fun _ => 0) 2 1 1 (initMaze 3 3)
      = (setCellZ (initMaze 3 3) 1 1 ' ', 3) := by
    unfold carve_path
    exact carveLoop_single_frame_stuck 3 3 (fun _ => 0) 1 1 _ (by decide)
      (permuteBy ((fun _ => 0) 2) directions)
      (fun d hd => ((permuteBy_perm _ _).mem_iff).mp hd) 3
  have hgl : genLayers 3 3 (fun _ => 0) 1 0
      = ([setCellZ (initMaze 3 3) 1 1 ' '], 3) := by
    have h1 : genLayers 3 3 (fun _ => 0) 1 0
        = genLayers 3 3 (fun _ => 0) (0 + 1) 0 := rfl
    rw [h1]
    simp only [genLayers]
    norm_num
    rw [hcp]
    exact ⟨rfl, rfl⟩
  have ho : oddRound 3 = 3 := rfl
  simp only [MazeGenerator.generate, ho]
  rw [hgl]
  rfl

theorem roundtrip_core (r c layer : ℤ) :
    world_to_grid_coords (grid_to_world_coords r c layer).x
      (grid_to_world_coords r c layer).z = (r, c) := by
  unfold world_to_grid_coords grid_to_world_coords BLOCK_SIZE MAZE_WIDTH MAZE_HEIGHT
  have hx : ((c : ℚ) * 5 - ((17 : ℕ) : ℚ) * 5 / 2 + 5 / 2 + ((17 : ℕ) : ℚ) * 5 / 2 - 5 / 2) / 5
      = (c : ℚ) := by push_cast; ring
  have hz : ((r : ℚ) * 5 - ((17 : ℕ) : ℚ) * 5 / 2 + 5 / 2 + ((17 : ℕ) : ℚ) * 5 / 2 - 5 / 2) / 5
      = (r : ℚ) := by push_cast; ring
  simp only [hx, hz, Int.floor_intCast]

/-! ### Session engine model (Server.py lines 141-625)

Connections are modelled by natural-number keys; `PLAYERS` is the
insertion-ordered association list a Python dict is.  Handlers return
`Except (ServerState × String) (ServerState × List Step)`: a `Step` trace
interleaves state mutations (coarse-grained markers) with broadcasts in the
exact order the source performs them, and an `error` carries the state at
the moment a Python exception would be raised, which the message loop's
handler turns into an unregistration of the sender. -/

/-- A decoded JSON scalar as the handlers see it. -/
inductive JVal where
  | jint (n : ℤ)
  | jnum (q : ℚ)
  | jstr (s : String)
  | jnull
deriving DecidableEq, Repr

/-- Python `float(v)` on a JSON scalar: numbers convert, `None` raises.
(A numeric string would also convert in Python; clients never send one, no
claim depends on it, and here strings are treated as failing.) -/
def jToFloat : JVal → Except String ℚ
  | .jint n => .ok (n : ℚ)
  | .jnum q => .ok q
  | .jstr _ => .error "ValueError"
  | .jnull => .error "TypeError"

/-- Python `int(v)`: ints pass, floats truncate toward zero, `None` raises
(non-numeric strings, likewise not sent by clients, are treated as failing). -/
def jToInt : JVal → Except String ℤ
  | .jint n => .ok n
  | .jnum q => .ok (q.num.tdiv (q.den : ℤ))
  | .jstr _ => .error "ValueError"
  | .jnull => .error "TypeError"

/-- A player record (the per-websocket dict of `PLAYERS`, Server.py line 153). -/
structure Player where
  id : String
  position : Vec3
  rotation : Vec3
  layer : ℤ
  health : ℤ
  score : ℤ
  color : ℕ
deriving DecidableEq, Repr

/-- A bullet record (Server.py lines 422-430); the wall-clock
`creation_time` is outside the model. -/
structure Bullet where
  id : String
  shooter_id : String
  position : Vec3
  direction : Vec3
  layer : ℤ
deriving DecidableEq, Repr

/-- The global mutable state: `PLAYERS`, `BULLETS`, `NEXT_PLAYER_ID`,
`NEXT_BULLET_ID`. -/
structure ServerState where
  players : List (ℕ × Player)
  bullets : List Bullet
  nextPlayerId : ℕ
  nextBulletId : ℕ
deriving DecidableEq, Repr

/-- The initial state (empty registries, counters at 0). -/
def initState : ServerState := ⟨[], [], 0, 0⟩

/-- A broadcast message (the JSON dicts passed to `broadcast`); the `init`
message is a direct send to one client, not a broadcast, and is not listed.
`player_respawned` additionally carries the fixed color in the source. -/
inductive Msg where
  | player_connected (pid : String)
  | player_disconnected (pid : String)
  | player_update (pid : String) (pos rot : Vec3) (layer : ℤ)
  | bullet_fired (bid pid : String) (sp dir : Vec3) (layer : ℤ)
  | score_update (pid : String) (new_score : ℤ)
  | health_update (target : String) (new_health score : ℤ)
  | player_defeated (pid : String) (final_score : ℤ) (killer : Option String)
  | player_respawned (pid : String) (pos : Vec3) (layer health score : ℤ) (rot : Vec3)
  | game_win (pid : String)
deriving DecidableEq, Repr

/-- The `type` field of a broadcast message. -/
inductive MsgType where
  | player_connected | player_disconnected | player_update | bullet_fired
  | score_update | health_update | player_defeated | player_respawned | game_win
deriving DecidableEq, Repr

def Msg.type : Msg → MsgType
  | .player_connected _ => .player_connected
  | .player_disconnected _ => .player_disconnected
  | .player_update _ _ _ _ => .player_update
  | .bullet_fired _ _ _ _ _ => .bullet_fired
  | .score_update _ _ => .score_update
  | .health_update _ _ _ => .health_update
  | .player_defeated _ _ _ => .player_defeated
  | .player_respawned _ _ _ _ _ _ => .player_respawned
  | .game_win _ => .game_win

/-- Coarse markers for the in-place state mutations a handler performs,
in source order. -/
inductive MutKind where
  | playerFields | bulletAppend | targetHealth | shooterScoreHit | defeatPenalty
  | respawnReset | defeatAward | teleportMove | joinAdd | leaveRemove
deriving DecidableEq, Repr

/-- One step of a handler's observable behavior: a state mutation or a
broadcast, in the order the source performs them. -/
inductive Step where
  | mut (k : MutKind)
  | bcast (m : Msg)
deriving DecidableEq, Repr

def Step.isMut : Step → Bool
  | .mut _ => true
  | .bcast _ => false

/-- The broadcast types of a trace, in emission order. -/
def bcastTypes (steps : List Step) : List MsgType :=
  steps.filterMap fun st =>
    match st with
    | .bcast m => some m.type
    | .mut _ => none

/-- The broadcast messages of a trace, in emission order. -/
def bcasts (steps : List Step) : List Msg :=
  steps.filterMap fun st =>
    match st with
    | .bcast m => some m
    | .mut _ => none

/-- The derived maze facts the handlers read: `GENERATED_MAZE_DATA`,
`MAZE_GENERATOR.teleporter_coords`, `END_GRID_COORDS`, and
`INITIAL_START_POSITION` as set by `debug_coordinates`. -/
structure GameEnv where
  maze_data : MazeSet
  teleporter_coords : List (List Tele)
  end_coords : ℕ × ℕ
  initial_start_position : Vec3
deriving Repr

/-- `PLAYERS.get(websocket)`. -/
def lookupConn (s : ServerState) (conn : ℕ) : Option Player :=
  (s.players.find? fun e => e.1 == conn).map (·.2)

/-- In-place mutation of one player's dict. -/
def updateConn (ps : List (ℕ × Player)) (conn : ℕ) (p : Player) :
    List (ℕ × Player) :=
  ps.map fun e => if e.1 = conn then (conn, p) else e

/-- `del PLAYERS[websocket]`. -/
def removeConn (ps : List (ℕ × Player)) (conn : ℕ) : List (ℕ × Player) :=
  ps.filter fun e => ¬ e.1 = conn

/-- Python list indexing: non-negative indices in range, negative indices
wrap once, anything else raises IndexError. -/
def pyIdx (l : List α) (i : ℤ) : Except String α :=
  if 0 ≤ i then
    match l.get? i.toNat with
    | some a => .ok a
    | none => .error "IndexError"
  else if -(l.length : ℤ) ≤ i then
    match l.get? (i + l.length).toNat with
    | some a => .ok a
    | none => .error "IndexError"
  else .error "IndexError"

/-- Python truthiness of an optional string field (None and "" are falsy). -/
def truthyOptStr : Option String → Bool
  | none => false
  | some s => !s.isEmpty

/-- `get_random_open_position_on_layer` (Server.py lines 183-204).  The scan
ranges over the constant `MAZE_HEIGHT × MAZE_WIDTH` window; out-of-window
reads return the sentinel (the server's maze always fills the window, where
Python would raise on a smaller one). -/
def get_random_open_position_on_layer (env : GameEnv) (layer_index : ℤ)
    (rnd : ℕ) : Vec3 :=
  if layer_index < 0 ∨ (NUM_MAZE_LAYERS : ℤ) ≤ layer_index then
    env.initial_start_position
  else
    let target_maze_layer := env.maze_data.getD layer_index.toNat []
    let open_spots := openSpots MAZE_HEIGHT MAZE_WIDTH target_maze_layer
    if open_spots.isEmpty then env.initial_start_position
    else
      let p := choiceBy rnd open_spots (0, 0)
      grid_to_world_coords p.1 p.2 layer_index

/-- `respawn_player(websocket, player_id, killer_id, reset_score)`
(Server.py lines 330-370): optional score penalty, then reset of health,
position, layer and rotation, then the `player_defeated` and
`player_respawned` broadcasts. -/
def respawn_player (env : GameEnv) (s : ServerState) (conn : ℕ)
    (player_id : String) (killer_id : Option String) (reset_score : Bool)
    (rnd : ℕ) : Except (ServerState × String) (ServerState × List Step) :=
  match lookupConn s conn with
  | none => .error (s, "KeyError")
  | some p =>
    let pen := truthyOptStr killer_id && reset_score
    let p1 := if pen then { p with score := max 0 (p.score - 100) } else p
    let steps1 := if pen then [Step.mut .defeatPenalty] else []
    let new_respawn_position := get_random_open_position_on_layer env 0 rnd
    let p2 := { p1 with
                health := MAX_HEALTH
                position := new_respawn_position
                layer := 0
                rotation := ⟨0, 0, 0⟩ }
    let s2 := { s with players := updateConn s.players conn p2 }
    .ok (s2, steps1 ++
      [Step.mut .respawnReset,
       Step.bcast (.player_defeated player_id p2.score killer_id),
       Step.bcast (.player_respawned player_id p2.position p2.layer p2.health
         p2.score p2.rotation)])

/-- The `{"x": .., "y": .., "z": ..}` sub-dict of a client message; a field
the client left out is `none`. -/
structure PosDict where
  x : Option JVal
  y : Option JVal
  z : Option JVal
deriving DecidableEq, Repr

/-- A decoded client message, by its `type` field.  A present-but-non-dict
`position`/`rotation` behaves exactly like an absent one in the source
(the `isinstance` guard skips it), so both are `none` here. -/
inductive ClientMsg where
  | player_update (position rotation : Option PosDict) (layer : Option JVal)
  | bullet_fired (start_position direction : Option PosDict) (layer : Option JVal)
  | player_hit (target_id : Option String)
  | teleport_request (target_layer : Option JVal)
  | teleport_to_start
  | player_reached_end
  | unknown (ty : String)
deriving DecidableEq, Repr

/-- `data["position"].get("x", current)` followed by `float(...)`. -/
def getFloatD (v : Option JVal) (dflt : ℚ) : Except String ℚ :=
  match v with
  | none => .ok dflt
  | some j => jToFloat j

/-- `float(data["start_position"]["x"])`: a missing key raises KeyError. -/
def getFloatReq (v : Option JVal) : Except String ℚ :=
  match v with
  | none => .error "KeyError"
  | some j => jToFloat j

/-- The field conversions of `handle_player_update`, in source order
(`float` of each provided coordinate with the current value as default,
then `int(data["layer"])`). -/
def playerUpdateFields (p : Player) (position rotation : Option PosDict)
    (layer : Option JVal) : Except String (Vec3 × Vec3 × ℤ) := do
  let pos ← match position with
    | none => pure p.position
    | some d => do
        let px ← getFloatD d.x p.position.x
        let py ← getFloatD d.y p.position.y
        let pz ← getFloatD d.z p.position.z
        pure (Vec3.mk px py pz)
  let rot ← match rotation with
    | none => pure p.rotation
    | some d => do
        let rx ← getFloatD d.x p.rotation.x
        let ry ← getFloatD d.y p.rotation.y
        let rz ← getFloatD d.z p.rotation.z
        pure (Vec3.mk rx ry rz)
  let ly ← match layer with
    | none => pure p.layer
    | some j => jToInt j
  pure (pos, rot, ly)

/-- `handle_player_update` (Server.py lines 372-397).  On a conversion
error the dispatcher unregisters the sender, so the partial in-place writes
Python performs before raising are unobservable; the error carries the
pre-event state. -/
def handle_player_update (s : ServerState) (conn : ℕ)
    (position rotation : Option PosDict) (layer : Option JVal) :
    Except (ServerState × String) (ServerState × List Step) :=
  match lookupConn s conn with
  | none => .ok (s, [])
  | some p =>
    match playerUpdateFields p position rotation layer with
    | .error e => .error (s, e)
    | .ok (pos, rot, ly) =>
      let p' := { p with position := pos, rotation := rot, layer := ly }
      let s' := { s with players := updateConn s.players conn p' }
      .ok (s', [Step.mut .playerFields,
        Step.bcast (.player_update p.id pos rot ly)])

/-- The field accesses and conversions of `handle_bullet_fired`, in source
order: a missing dict or key raises KeyError before `float`/`int` run. -/
def bulletFields (start_position direction : Option PosDict)
    (layer : Option JVal) : Except String (Vec3 × Vec3 × ℤ) := do
  let sp ← match start_position with
    | none => Except.error "KeyError"
    | some d => do
        let x ← getFloatReq d.x
        let y ← getFloatReq d.y
        let z ← getFloatReq d.z
        pure (Vec3.mk x y z)
  let dir ← match direction with
    | none => Except.error "KeyError"
    | some d => do
        let x ← getFloatReq d.x
        let y ← getFloatReq d.y
        let z ← getFloatReq d.z
        pure (Vec3.mk x y z)
  let ly ← match layer with
    | none => Except.error "KeyError"
    | some j => jToInt j
  pure (sp, dir, ly)

/-- `handle_bullet_fired` (Server.py lines 399-440).  `NEXT_BULLET_ID` is
advanced before the field accesses, so the error state keeps the increment. -/
def handle_bullet_fired (s : ServerState) (conn : ℕ)
    (start_position direction : Option PosDict) (layer : Option JVal) :
    Except (ServerState × String) (ServerState × List Step) :=
  match lookupConn s conn with
  | none => .ok (s, [])
  | some p =>
    let bullet_id := "bullet_" ++ toString s.nextBulletId
    let s1 := { s with nextBulletId := s.nextBulletId + 1 }
    match bulletFields start_position direction layer with
    | .error e => .error (s1, e)
    | .ok (sp, dir, ly) =>
      let b : Bullet := ⟨bullet_id, p.id, sp, dir, ly⟩
      let s2 := { s1 with bullets := s1.bullets ++ [b] }
      .ok (s2, [Step.mut .bulletAppend,
        Step.bcast (.bullet_fired bullet_id p.id sp dir ly)])

/-- `handle_player_hit` (Server.py lines 442-496): damage the target,
credit the shooter, broadcast `score_update` then `health_update`
(this source order is what claim C1 is about), and on defeat respawn the
target with penalty and award the shooter 500 with one more
`score_update`.  Dict aliasing is modelled by re-reading the player's
entry from the current state at every access. -/
def handle_player_hit (env : GameEnv) (s : ServerState) (conn : ℕ)
    (target_id : Option String) (rnd : ℕ) :
    Except (ServerState × String) (ServerState × List Step) :=
  let shooter_id := (lookupConn s conn).map (·.id)
  if ¬ truthyOptStr target_id = true ∨ ¬ truthyOptStr shooter_id = true then
    .ok (s, [])
  else
    match s.players.find? fun e => e.2.id == target_id.getD "" with
    | none => .ok (s, [])
    | some tgt =>
      let tconn := tgt.1
      let tid := target_id.getD ""
      let tp1 := { tgt.2 with health := tgt.2.health - BULLET_DAMAGE }
      let s1 := { s with players := updateConn s.players tconn tp1 }
      match lookupConn s1 conn with
      | none => .error (s1, "KeyError")
      | some sh1 =>
        let sh2 := { sh1 with score := sh1.score + 10 }
        let s2 := { s1 with players := updateConn s1.players conn sh2 }
        let steps2 := [Step.mut .targetHealth, Step.mut .shooterScoreHit,
          Step.bcast (.score_update sh2.id sh2.score)]
        match lookupConn s2 tconn with
        | none => .error (s2, "KeyError")
        | some tp2 =>
          let steps3 := steps2 ++ [Step.bcast (.health_update tid tp2.health tp2.score)]
          if tp2.health ≤ 0 then
            match respawn_player env s2 tconn tid (some sh2.id) true rnd with
            | .error e => .error e
            | .ok (s3, stepsR) =>
              match lookupConn s3 conn with
              | none => .error (s3, "KeyError")
              | some sh3 =>
                let sh4 := { sh3 with score := sh3.score + 500 }
                let s4 := { s3 with players := updateConn s3.players conn sh4 }
                .ok (s4, steps3 ++ stepsR ++ [Step.mut .defeatAward,
                  Step.bcast (.score_update sh4.id sh4.score)])
          else .ok (s2, steps3)

/-- The maze read
`GENERATED_MAZE_DATA[player["layer"]][grid.r][grid.c]` of
`handle_teleport_request` (Server.py lines 509-510): three Python list
indexings on the stored layer and the unclamped grid coordinates. -/
def currentCell (env : GameEnv) (p : Player) : Except String Char :=
  let rc := world_to_grid_coords p.position.x p.position.z
  match pyIdx env.maze_data p.layer with
  | .error e => .error e
  | .ok lay =>
    match pyIdx lay rc.1 with
    | .error e => .error e
    | .ok row => pyIdx row rc.2

/-- `handle_teleport_request` (Server.py lines 498-537): validate the field,
read the player's current cell (Python list indexing, which can wrap or
raise), and if standing on `'L'` requesting the next layer below the layer
count, move to the target layer's first `'l'` teleporter. -/
def handle_teleport_request (env : GameEnv) (s : ServerState) (conn : ℕ)
    (target_layer : Option JVal) :
    Except (ServerState × String) (ServerState × List Step) :=
  match lookupConn s conn with
  | none => .ok (s, [])
  | some p =>
    match target_layer with
    | some (.jint tl) =>
      match currentCell env p with
      | .error e => .error (s, e)
      | .ok current_cell_char =>
            if current_cell_char = 'L' ∧ tl = p.layer + 1
                ∧ tl < (NUM_MAZE_LAYERS : ℤ) then
              let tlist := if 0 ≤ tl ∧ tl.toNat < env.teleporter_coords.length
                then env.teleporter_coords.getD tl.toNat [] else []
              match tlist.find? fun t => t.ty == 'l' with
              | some t =>
                let new_position := grid_to_world_coords t.r t.c tl
                let p' := { p with position := new_position, layer := tl }
                let s' := { s with players := updateConn s.players conn p' }
                .ok (s', [Step.mut .teleportMove,
                  Step.bcast (.player_update p.id new_position p.rotation tl)])
              | none => .ok (s, [])
            else .ok (s, [])
    | _ => .ok (s, [])

/-- `handle_teleport_to_start` (Server.py lines 539-564): unconditionally
reset position (fresh random open cell of layer 0), layer and rotation,
then broadcast one `player_update`. -/
def handle_teleport_to_start (env : GameEnv) (s : ServerState) (conn : ℕ)
    (rnd : ℕ) : Except (ServerState × String) (ServerState × List Step) :=
  match lookupConn s conn with
  | none => .ok (s, [])
  | some p =>
    let new_respawn_position := get_random_open_position_on_layer env 0 rnd
    let p' := { p with
                position := new_respawn_position
                layer := 0
                rotation := Vec3.mk 0 0 0 }
    let s' := { s with players := updateConn s.players conn p' }
    .ok (s', [Step.mut .playerFields,
      Step.bcast (.player_update p.id p'.position p'.rotation 0)])

/-- `handle_player_reached_end` (Server.py lines 566-593): compare the
player's layer and grid cell against the stored end coordinates (no maze
indexing happens here); on a match broadcast `game_win` and, after the
delay, respawn with killer tag "maze" and no penalty. -/
def handle_player_reached_end (env : GameEnv) (s : ServerState) (conn : ℕ)
    (rnd : ℕ) : Except (ServerState × String) (ServerState × List Step) :=
  match lookupConn s conn with
  | none => .ok (s, [])
  | some p =>
    let rc := world_to_grid_coords p.position.x p.position.z
    if p.layer = (NUM_MAZE_LAYERS : ℤ) - 1 ∧ rc.1 = (env.end_coords.1 : ℤ)
        ∧ rc.2 = (env.end_coords.2 : ℤ) then
      match respawn_player env s conn p.id (some "maze") false rnd with
      | .error e => .error e
      | .ok (s', stepsR) => .ok (s', Step.bcast (.game_win p.id) :: stepsR)
    else .ok (s, [])

/-- `register_player` (Server.py lines 263-320): allocate the next id, a
random color, a random layer-0 spawn, append the player and broadcast
`player_connected` (the direct `init` send is not a broadcast). -/
def register_player (env : GameEnv) (s : ServerState) (conn : ℕ)
    (rndColor rndSpawn : ℕ) : ServerState × List Step :=
  let player_id := "player_" ++ toString s.nextPlayerId
  let spawn_position := get_random_open_position_on_layer env 0 rndSpawn
  let p : Player := ⟨player_id, spawn_position, ⟨0, 0, 0⟩, 0, MAX_HEALTH, 0,
    rndColor % 16777216⟩
  ({ s with
     players := s.players ++ [(conn, p)]
     nextPlayerId := s.nextPlayerId + 1 },
   [Step.mut .joinAdd, Step.bcast (.player_connected player_id)])

/-- `unregister_player` (Server.py lines 322-328): delete the entry and
broadcast `player_disconnected`; a no-op for an unknown connection. -/
def unregister_player (s : ServerState) (conn : ℕ) : ServerState × List Step :=
  match lookupConn s conn with
  | some p => ({ s with players := removeConn s.players conn },
      [Step.mut .leaveRemove, Step.bcast (.player_disconnected p.id)])
  | none => (s, [])

/-- One message of `handle_client_messages` (Server.py lines 596-625): the
type dispatch, with any exception caught by the surrounding handler — the
diagnostic is printed, the `async for` loop ends, and `finally` runs
`unregister_player`, so an erroring event terminates the sender's session. -/
def dispatch (env : GameEnv) (s : ServerState) (conn : ℕ) (msg : ClientMsg)
    (rnd : ℕ) : ServerState × List Step :=
  let r : Except (ServerState × String) (ServerState × List Step) :=
    match msg with
    | .player_update pos rot ly => handle_player_update s conn pos rot ly
    | .bullet_fired sp dir ly => handle_bullet_fired s conn sp dir ly
    | .player_hit tid => handle_player_hit env s conn tid rnd
    | .teleport_request tl => handle_teleport_request env s conn tl
    | .teleport_to_start => handle_teleport_to_start env s conn rnd
    | .player_reached_end => handle_player_reached_end env s conn rnd
    | .unknown _ => .ok (s, [])
  match r with
  | .ok (s', steps) => (s', steps)
  | .error (s', _) => unregister_player s' conn

/-- A session-level event: a connection opening, closing, or delivering one
message. -/
inductive GEvent where
  | join (conn rndColor rndSpawn : ℕ)
  | leave (conn : ℕ)
  | message (conn : ℕ) (msg : ClientMsg) (rnd : ℕ)
deriving Repr

/-- Processing of one event against the shared state. -/
def stepEvent (env : GameEnv) (s : ServerState) : GEvent → ServerState × List Step
  | .join conn rndColor rndSpawn => register_player env s conn rndColor rndSpawn
  | .leave conn => unregister_player s conn
  | .message conn msg rnd => dispatch env s conn msg rnd

/-- The state after a sequence of processed events. -/
def runEvents (env : GameEnv) (s0 : ServerState) (evs : List GEvent) : ServerState :=
  evs.foldl (fun s e => (stepEvent env s e).1) s0

/-! ### Lookup and update lemmas for the player map -/

theorem findConn_update_eq (ps : List (ℕ × Player)) (c : ℕ) (p : Player) :
    (updateConn ps c p).find? (fun e => e.1 == c)
      = ((ps.find? fun e => e.1 == c).map fun _ => (c, p)) := by
  induction ps with
  | nil => rfl
  | cons a as ih =>
    by_cases hac : a.1 = c
    · simp only [updateConn, List.map_cons, if_pos hac]
      rw [List.find?_cons_of_pos _ (by simp), List.find?_cons_of_pos _ (by simp [hac])]
      rfl
    · simp only [updateConn, List.map_cons, if_neg hac]
      rw [List.find?_cons_of_neg _ (by simpa using hac),
        List.find?_cons_of_neg _ (by simpa using hac)]
      exact ih

theorem findConn_update_ne (ps : List (ℕ × Player)) (c c' : ℕ) (p : Player)
    (h : ¬ c' = c) :
    (updateConn ps c p).find? (fun e => e.1 == c') = ps.find? (fun e => e.1 == c') := by
  induction ps with
  | nil => rfl
  | cons a as ih =>
    by_cases hac : a.1 = c
    · simp only [updateConn, List.map_cons, if_pos hac]
      rw [List.find?_cons_of_neg _ (by simpa using fun hcon => h hcon.symm),
        List.find?_cons_of_neg _ (by simp [hac]; omega)]
      exact ih
    · simp only [updateConn, List.map_cons, if_neg hac]
      by_cases hc' : a.1 = c'
      · rw [List.find?_cons_of_pos _ (by simp [hc']),
          List.find?_cons_of_pos _ (by simp [hc'])]
      · rw [List.find?_cons_of_neg _ (by simpa using hc'),
          List.find?_cons_of_neg _ (by simpa using hc')]
        exact ih

theorem findConn_remove_self (ps : List (ℕ × Player)) (c : ℕ) :
    (removeConn ps c).find? (fun e => e.1 == c) = none := by
  apply List.find?_eq_none.mpr
  intro e he
  have hmem := List.mem_filter.mp he
  simpa using of_decide_eq_true hmem.2

theorem findConn_remove_ne (ps : List (ℕ × Player)) (c c' : ℕ) (h : ¬ c' = c) :
    (removeConn ps c).find? (fun e => e.1 == c') = ps.find? (fun e => e.1 == c') := by
  induction ps with
  | nil => rfl
  | cons a as ih =>
    by_cases hac : a.1 = c
    · have hdrop : removeConn (a :: as) c = removeConn as c := by
        simp [removeConn, List.filter_cons, hac]
      rw [hdrop, List.find?_cons_of_neg _ (by simp [hac]; omega)]
      exact ih
    · have hkeep : removeConn (a :: as) c = a :: removeConn as c := by
        simp [removeConn, List.filter_cons, hac]
      rw [hkeep]
      by_cases hc' : a.1 = c'
      · rw [List.find?_cons_of_pos _ (by simp [hc']),
          List.find?_cons_of_pos _ (by simp [hc'])]
      · rw [List.find?_cons_of_neg _ (by simpa using hc'),
          List.find?_cons_of_neg _ (by simpa using hc')]
        exact ih

theorem lookupConn_mem (s : ServerState) (conn : ℕ) (p : Player)
    (h : lookupConn s conn = some p) : ∃ e ∈ s.players, e.2 = p := by
  unfold lookupConn at h
  cases hf : s.players.find? fun e => e.1 == conn with
  | none => rw [hf] at h; cases h
  | some e =>
    rw [hf] at h
    exact ⟨e, List.mem_of_find?_eq_some hf, by injection h⟩

/-! ### Claim theorems (C3, C4) -/

theorem lookupConn_update_self (s : ServerState) (conn : ℕ) (q p2 : Player)
    (hq : lookupConn s conn = some q) :
    lookupConn { s with players := updateConn s.players conn p2 } conn = some p2 := by
  simp only [lookupConn, findConn_update_eq]
  unfold lookupConn at hq
  cases hf : s.players.find? fun e => e.1 == conn with
  | none => rw [hf] at hq; cases hq
  | some e => rfl

/-- `respawn_player` on a connection whose lookup succeeds: the exact
resulting state and step trace, as a reusable equation. -/
theorem respawn_ok (env : GameEnv) (s : ServerState) (conn : ℕ) (pid : String)
    (killer : Option String) (rs : Bool) (rnd : ℕ) (q : Player)
    (hq : lookupConn s conn = some q) :
    respawn_player env s conn pid killer rs rnd
      = .ok ({ s with players := updateConn s.players conn
                        { q with
                          score := if truthyOptStr killer && rs
                            then max 0 (q.score - 100) else q.score
                          health := MAX_HEALTH
                          position := get_random_open_position_on_layer env 0 rnd
                          layer := 0
                          rotation := ⟨0, 0, 0⟩ } },
          (if truthyOptStr killer && rs then [Step.mut .defeatPenalty] else []) ++
          [Step.mut .respawnReset,
           Step.bcast (.player_defeated pid
             (if truthyOptStr killer && rs then max 0 (q.score - 100) else q.score)
             killer),
           Step.bcast (.player_respawned pid
             (get_random_open_position_on_layer env 0 rnd) 0 MAX_HEALTH
             (if truthyOptStr killer && rs then max 0 (q.score - 100) else q.score)
             ⟨0, 0, 0⟩)]) := by
  by_cases hpen : (truthyOptStr killer && rs) = true
  · simp only [respawn_player, hq, hpen, eq_self_iff_true, if_true]
  · simp only [Bool.not_eq_true] at hpen
    simp only [respawn_player, hq, hpen, Bool.false_eq_true, if_false]

theorem lookupConn_update_other (s : ServerState) (c c' : ℕ) (q : Player)
    (h : ¬ c' = c) :
    lookupConn { s with players := updateConn s.players c q } c' = lookupConn s c' := by
  simp only [lookupConn, findConn_update_ne _ _ _ _ h]


/-- C3: for every grid cell (r, c) with 0 ≤ r < height and 0 ≤ c < width and
every layer index, `world_to_grid_coords` applied to the x and z components
of `grid_to_world_coords(r, c, layer)` returns exactly (r, c). -/
theorem claim_C3_roundtrip (r c layer : ℤ)
    (hr : 0 ≤ r ∧ r < (MAZE_HEIGHT : ℤ)) (hc : 0 ≤ c ∧ c < (MAZE_WIDTH : ℤ)) :
    world_to_grid_coords (grid_to_world_coords r c layer).x
      (grid_to_world_coords r c layer).z = (r, c) :=
  roundtrip_core r c layer

/-- C3 witness: the round trip at the concrete cell (3, 5) on layer 1. -/
theorem claim_C3_roundtrip_witness :
    (0 ≤ (3 : ℤ) ∧ (3 : ℤ) < (MAZE_HEIGHT : ℤ))
      ∧ (0 ≤ (5 : ℤ) ∧ (5 : ℤ) < (MAZE_WIDTH : ℤ))
      ∧ world_to_grid_coords (grid_to_world_coords 3 5 1).x
          (grid_to_world_coords 3 5 1).z = (3, 5) :=
  ⟨by decide, by decide, claim_C3_roundtrip 3 5 1 (by decide) (by decide)⟩

/-- C4 counterexample: the claim admits width and height exactly 3 after
odd-rounding, but for the 3×3 grid the only odd-coordinate cell is (1, 1),
so after carving a single open cell the Start label exhausts layer 0 and
with one layer no End cell is ever written (`generate` logs a fallback and
leaves the maze without an `'E'`). -/
theorem claim_C4_counterexample :
    (3 ≤ oddRound 3) ∧ (3 ≤ oddRound 3) ∧ 1 ≤ 1
      ∧ ¬ mazeSetCountsOK (MazeGenerator.generate 3 3 1 (fun _ => 0)).mazes 1 := by
  refine ⟨by decide, by decide, by decide, ?_⟩
  rw [generate_3x3_mazes]
  decide

/-- C4 (amended): for every maze set produced by `generate` with width and
height at least 3 after odd-rounding, at least one of them at least 5 after
odd-rounding, and any layer count ≥ 1: exactly one Start cell exists across
the whole maze set, on layer 0; exactly one End cell exists, on the last
layer; every layer except the last has exactly one UpTeleporter cell; every
layer except layer 0 has exactly one DownTeleporter cell. -/
theorem claim_C4_amended (width0 height0 L : ℕ) (o : Oracle)
    (h3w : 3 ≤ oddRound width0) (h3h : 3 ≤ oddRound height0)
    (h5 : 5 ≤ oddRound width0 ∨ 5 ≤ oddRound height0) (hL : 1 ≤ L) :
    mazeSetCountsOK (MazeGenerator.generate width0 height0 L o).mazes L :=
  generate_counts width0 height0 L o h3w h3h h5 hL

/-- C4 witness: the server's configuration (width 17, height 17, 2 layers)
satisfies the amended hypotheses, at one concrete oracle. -/
theorem claim_C4_amended_witness :
    ((3 ≤ oddRound 17) ∧ (3 ≤ oddRound 17)
        ∧ (5 ≤ oddRound 17 ∨ 5 ≤ oddRound 17) ∧ 1 ≤ 2)
      ∧ mazeSetCountsOK (MazeGenerator.generate 17 17 2 (fun _ => 0)).mazes 2 :=
  ⟨⟨by decide, by decide, Or.inl (by decide), by decide⟩,
    claim_C4_amended 17 17 2 (fun _ => 0) (by decide) (by decide)
      (Or.inl (by decide)) (by decide)⟩

/-! ### Fixtures for witnesses and counterexamples -/

/-- A tiny environment whose layer 0 has exactly one open cell at (0, 0)
inside the scanned 17×17 window. -/
def wEnv : GameEnv :=
  { maze_data := [[[' ']]]
    teleporter_coords := []
    end_coords := (0, 0)
    initial_start_position := ⟨0, 0, 0⟩ }

def wPlayer : Player := ⟨"player_0", ⟨1, 2, 3⟩, ⟨4, 5, 6⟩, 1, 40, 250, 9⟩

def wState : ServerState := ⟨[(0, wPlayer)], [], 1, 0⟩

/-- C6: every respawn leaves the player with health 100, layer 0, rotation
(0,0,0), and a position whose `world_to_grid_coords` result is an Open cell
of layer 0 (given layer 0 has at least one Open cell); when the penalty
applies the score is reduced by 100 but floored at 0. -/
theorem claim_C6_respawn (env : GameEnv) (s : ServerState) (conn : ℕ)
    (pid : String) (killer_id : Option String) (reset_score : Bool) (rnd : ℕ)
    (p : Player) (hp : lookupConn s conn = some p)
    (hopen : (openSpots MAZE_HEIGHT MAZE_WIDTH
      (env.maze_data.getD 0 [])).isEmpty = false) :
    ∃ (s' : ServerState) (steps : List Step) (p' : Player) (r c : ℕ),
      respawn_player env s conn pid killer_id reset_score rnd = .ok (s', steps)
        ∧ lookupConn s' conn = some p'
        ∧ p'.health = 100 ∧ p'.layer = 0 ∧ p'.rotation = ⟨0, 0, 0⟩
        ∧ p'.position = grid_to_world_coords r c 0
        ∧ world_to_grid_coords p'.position.x p'.position.z = ((r : ℤ), (c : ℤ))
        ∧ getCell (env.maze_data.getD 0 []) r c = ' '
        ∧ p'.score = (if truthyOptStr killer_id && reset_score
            then max 0 (p.score - 100) else p.score) := by
  have hq := choiceBy_mem rnd (openSpots MAZE_HEIGHT MAZE_WIDTH
    (env.maze_data.getD 0 [])) (0, 0) (by rw [hopen]; exact Bool.false_ne_true)
  obtain ⟨hcell, hrh, hcw⟩ := openSpots_mem _ _ _ _ hq
  set q := choiceBy rnd (openSpots MAZE_HEIGHT MAZE_WIDTH
    (env.maze_data.getD 0 [])) (0, 0) with hqdef
  have hpos : get_random_open_position_on_layer env 0 rnd
      = grid_to_world_coords q.1 q.2 0 := by
    unfold get_random_open_position_on_layer
    rw [if_neg (by norm_num [NUM_MAZE_LAYERS])]
    simp only [Int.toNat_zero]
    rw [if_neg (by rw [hopen]; exact Bool.false_ne_true)]
  have hlook : ∀ p2 : Player,
      lookupConn { s with players := updateConn s.players conn p2 } conn = some p2 := by
    intro p2
    simp only [lookupConn, findConn_update_eq]
    unfold lookupConn at hp
    cases hf : s.players.find? fun e => e.1 == conn with
    | none => rw [hf] at hp; cases hp
    | some e => rfl
  by_cases hpen : (truthyOptStr killer_id && reset_score) = true
  · have hresp : ∃ steps, respawn_player env s conn pid killer_id reset_score rnd
        = .ok ({ s with players := updateConn s.players conn
                          { p with
                            score := max 0 (p.score - 100)
                            health := MAX_HEALTH
                            position := grid_to_world_coords q.1 q.2 0
                            layer := 0
                            rotation := ⟨0, 0, 0⟩ } }, steps) := by
      simp only [respawn_player, hp, hpos, hpen, if_true]
      exact ⟨_, rfl⟩
    obtain ⟨steps, hresp⟩ := hresp
    exact ⟨_, steps, _, q.1, q.2, hresp, hlook _, rfl, rfl, rfl, rfl,
      roundtrip_core q.1 q.2 0, hcell, by rw [if_pos hpen]⟩
  · have hresp : ∃ steps, respawn_player env s conn pid killer_id reset_score rnd
        = .ok ({ s with players := updateConn s.players conn
                          { p with
                            health := MAX_HEALTH
                            position := grid_to_world_coords q.1 q.2 0
                            layer := 0
                            rotation := ⟨0, 0, 0⟩ } }, steps) := by
      simp only [respawn_player, hp, hpos, if_neg hpen]
      exact ⟨_, rfl⟩
    obtain ⟨steps, hresp⟩ := hresp
    exact ⟨_, steps, _, q.1, q.2, hresp, hlook _, rfl, rfl, rfl, rfl,
      roundtrip_core q.1 q.2 0, hcell, by rw [if_neg hpen]⟩

/-- C6 witness: a concrete respawn with the defeat penalty applied. -/
theorem claim_C6_respawn_witness :
    ∃ (s' : ServerState) (steps : List Step) (p' : Player) (r c : ℕ),
      respawn_player wEnv wState 0 "player_0" (some "player_1") true 7 = .ok (s', steps)
        ∧ lookupConn s' 0 = some p'
        ∧ p'.health = 100 ∧ p'.layer = 0 ∧ p'.rotation = ⟨0, 0, 0⟩
        ∧ p'.position = grid_to_world_coords r c 0
        ∧ world_to_grid_coords p'.position.x p'.position.z = ((r : ℤ), (c : ℤ))
        ∧ getCell (wEnv.maze_data.getD 0 []) r c = ' '
        ∧ p'.score = (if truthyOptStr (some "player_1") && true
            then max 0 (wPlayer.score - 100) else wPlayer.score) :=
  claim_C6_respawn wEnv wState 0 "player_0" (some "player_1") true 7 wPlayer
    (by decide) (by decide)

/-- C8: processing teleport_to_start for an existing player unconditionally
resets position to a random Open cell of layer 0, layer to 0 and rotation
to (0,0,0), leaves health and score unchanged, and issues exactly one
player_update broadcast.  (If layer 0 had no open cell the source would
fall back to `INITIAL_START_POSITION`; the server's generated maze always
has open cells on layer 0.) -/
theorem claim_C8_teleport_to_start (env : GameEnv) (s : ServerState) (conn : ℕ)
    (rnd : ℕ) (p : Player) (hp : lookupConn s conn = some p)
    (hopen : (openSpots MAZE_HEIGHT MAZE_WIDTH
      (env.maze_data.getD 0 [])).isEmpty = false) :
    ∃ (r c : ℕ),
      handle_teleport_to_start env s conn rnd
        = .ok ({ s with players := updateConn s.players conn
                            { p with
                              position := grid_to_world_coords r c 0
                              layer := 0
                              rotation := ⟨0, 0, 0⟩ } },
            [Step.mut .playerFields,
             Step.bcast (.player_update p.id (grid_to_world_coords r c 0) ⟨0, 0, 0⟩ 0)])
        ∧ getCell (env.maze_data.getD 0 []) r c = ' ' := by
  have hq := choiceBy_mem rnd (openSpots MAZE_HEIGHT MAZE_WIDTH
    (env.maze_data.getD 0 [])) (0, 0) (by rw [hopen]; exact Bool.false_ne_true)
  obtain ⟨hcell, hrh, hcw⟩ := openSpots_mem _ _ _ _ hq
  set q := choiceBy rnd (openSpots MAZE_HEIGHT MAZE_WIDTH
    (env.maze_data.getD 0 [])) (0, 0) with hqdef
  have hpos : get_random_open_position_on_layer env 0 rnd
      = grid_to_world_coords q.1 q.2 0 := by
    unfold get_random_open_position_on_layer
    rw [if_neg (by norm_num [NUM_MAZE_LAYERS])]
    simp only [Int.toNat_zero]
    rw [if_neg (by rw [hopen]; exact Bool.false_ne_true)]
  refine ⟨q.1, q.2, ?_, hcell⟩
  simp only [handle_teleport_to_start, hp, hpos]

/-- C8 witness: a concrete teleport-to-start. -/
theorem claim_C8_teleport_to_start_witness :
    ∃ (r c : ℕ),
      handle_teleport_to_start wEnv wState 0 5
        = .ok ({ wState with players := updateConn wState.players 0
                                 { wPlayer with
                                   position := grid_to_world_coords r c 0
                                   layer := 0
                                   rotation := ⟨0, 0, 0⟩ } },
            [Step.mut .playerFields,
             Step.bcast (.player_update wPlayer.id (grid_to_world_coords r c 0)
               ⟨0, 0, 0⟩ 0)])
        ∧ getCell (wEnv.maze_data.getD 0 []) r c = ' ' :=
  claim_C8_teleport_to_start wEnv wState 0 5 wPlayer (by decide) (by decide)

/-! ### Claim C5: teleport_request acceptance condition -/

def w5Env : GameEnv :=
  { maze_data := [[['L']], [['l']]]
    teleporter_coords := [[], [⟨0, 0, 'l'⟩]]
    end_coords := (0, 0)
    initial_start_position := ⟨0, 0, 0⟩ }

def w5Player : Player :=
  ⟨"player_0", grid_to_world_coords 0 0 0, ⟨0, 0, 0⟩, 0, 100, 0, 9⟩

def w5State : ServerState := ⟨[(0, w5Player)], [], 1, 0⟩

/-- C5: with the player's maze reads in range (their current cell resolves
to `ch`) and the target layer's teleporter list holding a DownTeleporter
`t`, a `teleport_request` is accepted iff `ch = 'L'`, the requested layer is
the current layer plus one, and it is below the layer count; acceptance
moves the player to the DownTeleporter's cell on the target layer with one
`player_update` broadcast, and a failed precondition leaves the state
unchanged with no broadcast. -/
theorem claim_C5_teleport (env : GameEnv) (s : ServerState) (conn : ℕ)
    (tl : ℤ) (p : Player) (t : Tele) (ch : Char)
    (hp : lookupConn s conn = some p)
    (hlayer : 0 ≤ p.layer)
    (hcell : currentCell env p = .ok ch)
    (hlen : env.teleporter_coords.length = NUM_MAZE_LAYERS)
    (hfind : ((env.teleporter_coords.getD (p.layer + 1).toNat []).find?
      fun t2 => t2.ty == 'l') = some t) :
    (ch = 'L' ∧ tl = p.layer + 1 ∧ tl < (NUM_MAZE_LAYERS : ℤ) →
      handle_teleport_request env s conn (some (.jint tl))
        = .ok ({ s with players := updateConn s.players conn
                          { p with
                            position := grid_to_world_coords t.r t.c tl
                            layer := tl } },
            [Step.mut .teleportMove,
             Step.bcast (.player_update p.id (grid_to_world_coords t.r t.c tl)
               p.rotation tl)]))
    ∧ (¬ (ch = 'L' ∧ tl = p.layer + 1 ∧ tl < (NUM_MAZE_LAYERS : ℤ)) →
      handle_teleport_request env s conn (some (.jint tl)) = .ok (s, [])) := by
  constructor
  · intro hcond
    obtain ⟨hch, htl, hlt⟩ := hcond
    subst hch
    subst htl
    have h0 : 0 ≤ p.layer + 1 ∧ (p.layer + 1).toNat < env.teleporter_coords.length := by
      rw [hlen]
      omega
    simp only [handle_teleport_request, hp, hcell]
    rw [if_pos ⟨trivial, trivial, hlt⟩, if_pos h0, hfind]
  · intro hncond
    simp only [handle_teleport_request, hp, hcell]
    rw [if_neg hncond]

/-- C5 witness: a concrete accepted teleport from layer 0 to layer 1. -/
theorem claim_C5_teleport_witness :
    handle_teleport_request w5Env w5State 0 (some (JVal.jint 1))
      = .ok ({ w5State with players := updateConn w5State.players 0
                              { w5Player with
                                position := grid_to_world_coords 0 0 1
                                layer := 1 } },
          [Step.mut .teleportMove,
           Step.bcast (.player_update w5Player.id (grid_to_world_coords 0 0 1)
             w5Player.rotation 1)]) :=
  (claim_C5_teleport w5Env w5State 0 1 w5Player ⟨0, 0, 'l'⟩ 'L'
    rfl (by decide)
    (by unfold currentCell
        rw [show world_to_grid_coords w5Player.position.x w5Player.position.z
          = (0, 0) from roundtrip_core 0 0 0]
        rfl)
    rfl (by decide)).1
    ⟨rfl, by decide, by decide⟩

/-! ### Claim C10: layer validation and maze indexing -/

def c10Player : Player :=
  ⟨"player_0", grid_to_world_coords 0 0 5, ⟨0, 0, 0⟩, 5, 100, 0, 9⟩

def c10State : ServerState := ⟨[(0, c10Player)], [], 1, 0⟩

/-- C10 counterexample: with a stored layer of 5 (out of range for the
two-layer maze), a teleport_request does index the maze data unclamped and
raises IndexError, but a player_reached_end performs no maze indexing at
all and returns cleanly — contradicting the claim that both handlers index
the maze with the stored layer. -/
theorem claim_C10_counterexample :
    handle_teleport_request wEnv c10State 0 (some (JVal.jint 6))
      = .error (c10State, "IndexError")
    ∧ handle_player_reached_end wEnv c10State 0 0 = .ok (c10State, []) :=
  ⟨rfl, rfl⟩

/-- C10 amended: handle_player_update stores any client-supplied integer
layer without range validation; a teleport_request whose maze read fails
propagates the indexing error (killing the connection at the dispatcher);
but handle_player_reached_end performs no maze indexing and always returns
without error. -/
theorem claim_C10_amended (env : GameEnv) (s : ServerState) (conn : ℕ) (rnd : ℕ) :
    (∀ (z : ℤ) (p : Player), lookupConn s conn = some p →
      ∃ (s' : ServerState) (steps : List Step) (p' : Player),
        handle_player_update s conn none none (some (.jint z)) = .ok (s', steps)
          ∧ lookupConn s' conn = some p' ∧ p'.layer = z)
    ∧ (∀ (tl : ℤ) (p : Player) (e : String), lookupConn s conn = some p →
        currentCell env p = .error e →
        handle_teleport_request env s conn (some (.jint tl)) = .error (s, e))
    ∧ (∃ out, handle_player_reached_end env s conn rnd = .ok out) := by
  refine ⟨?_, ?_, ?_⟩
  · intro z p hp
    have hfields : playerUpdateFields p none none (some (.jint z))
        = .ok (p.position, p.rotation, z) := rfl
    have hres : handle_player_update s conn none none (some (.jint z))
        = .ok ({ s with players := updateConn s.players conn
                          { p with
                            position := p.position
                            rotation := p.rotation
                            layer := z } },
            [Step.mut .playerFields,
             Step.bcast (.player_update p.id p.position p.rotation z)]) := by
      simp only [handle_player_update, hp, hfields]
    exact ⟨_, _, _, hres, lookupConn_update_self s conn p _ hp, rfl⟩
  · intro tl p e hp hcell
    simp only [handle_teleport_request, hp, hcell]
  · cases hp : lookupConn s conn with
    | none =>
      exact ⟨(s, []), by simp only [handle_player_reached_end, hp]⟩
    | some p =>
      by_cases hwin : p.layer = (NUM_MAZE_LAYERS : ℤ) - 1
          ∧ (world_to_grid_coords p.position.x p.position.z).1 = (env.end_coords.1 : ℤ)
          ∧ (world_to_grid_coords p.position.x p.position.z).2 = (env.end_coords.2 : ℤ)
      · obtain ⟨o1, ho1⟩ : ∃ o1,
            respawn_player env s conn p.id (some "maze") false rnd = .ok o1 := by
          simp only [respawn_player, hp]
          exact ⟨_, rfl⟩
        refine ⟨(o1.1, Step.bcast (.game_win p.id) :: o1.2), ?_⟩
        simp only [handle_player_reached_end, hp]
        rw [if_pos hwin, ho1]
      · exact ⟨(s, []), by
          simp only [handle_player_reached_end, hp]
          rw [if_neg hwin]⟩

/-- C10 amended witness: concrete instances of the three behaviors. -/
theorem claim_C10_amended_witness :
    (∃ (s' : ServerState) (steps : List Step) (p' : Player),
      handle_player_update wState 0 none none (some (JVal.jint 5)) = .ok (s', steps)
        ∧ lookupConn s' 0 = some p' ∧ p'.layer = 5)
    ∧ handle_teleport_request wEnv wState 0 (some (JVal.jint 6))
        = .error (wState, "IndexError")
    ∧ ∃ out, handle_player_reached_end wEnv wState 0 0 = .ok out :=
  ⟨(claim_C10_amended wEnv wState 0 0).1 5 wPlayer rfl,
   (claim_C10_amended wEnv wState 0 0).2.1 6 wPlayer "IndexError" rfl rfl,
   (claim_C10_amended wEnv wState 0 0).2.2⟩

/-! ### Claim C2: handling of malformed events -/

/-- C2 counterexample: a `bullet_fired` message with its required fields
missing raises KeyError in the handler; the dispatcher's exception handling
unregisters the sender, so the sender's connection does not stay open as
the claim states. -/
theorem claim_C2_counterexample :
    lookupConn (dispatch wEnv wState 0 (.bullet_fired none none none) 0).1 0 = none
    ∧ (dispatch wEnv wState 0 (.bullet_fired none none none) 0).2
      = [Step.mut .leaveRemove, Step.bcast (.player_disconnected "player_0")] :=
  ⟨rfl, rfl⟩

/-- C2 amended: an unknown event type, a `player_hit` on an unknown target,
and a `teleport_request` with a missing or non-integer field are dropped
with no state change; a `player_update` or `bullet_fired` with
missing/mistyped required fields raises, which terminates and unregisters
the sender (for `bullet_fired` after the bullet counter was already
advanced); the engine itself never crashes, and unregistering the sender
never changes another connection's player entry. -/
theorem claim_C2_amended (env : GameEnv) (s : ServerState) (conn : ℕ) (rnd : ℕ) :
    (∀ ty, dispatch env s conn (.unknown ty) rnd = (s, []))
    ∧ (∀ tid, s.players.find? (fun e => e.2.id == tid) = none →
        dispatch env s conn (.player_hit (some tid)) rnd = (s, []))
    ∧ (∀ tl, (∀ z : ℤ, ¬ tl = some (JVal.jint z)) →
        dispatch env s conn (.teleport_request tl) rnd = (s, []))
    ∧ (∀ pos rot ly (p : Player) (e : String), lookupConn s conn = some p →
        playerUpdateFields p pos rot ly = .error e →
        dispatch env s conn (.player_update pos rot ly) rnd
          = unregister_player s conn)
    ∧ (∀ sp dir ly (p : Player) (e : String), lookupConn s conn = some p →
        bulletFields sp dir ly = .error e →
        dispatch env s conn (.bullet_fired sp dir ly) rnd
          = unregister_player { s with nextBulletId := s.nextBulletId + 1 } conn)
    ∧ (∀ c', ¬ c' = conn →
        lookupConn (unregister_player s conn).1 c' = lookupConn s c') := by
  refine ⟨?_, ?_, ?_, ?_, ?_, ?_⟩
  · intro ty
    rfl
  · intro tid hfind
    have h : handle_player_hit env s conn (some tid) rnd = .ok (s, []) := by
      unfold handle_player_hit
      by_cases hsh : ¬ truthyOptStr (some tid) = true
          ∨ ¬ truthyOptStr ((lookupConn s conn).map fun p => p.id) = true
      · rw [if_pos hsh]
      · rw [if_neg hsh]
        simp only [Option.getD_some]
        rw [hfind]
    simp only [dispatch, h]
  · intro tl htl
    have h : handle_teleport_request env s conn tl = .ok (s, []) := by
      cases tl with
      | none =>
        cases hp : lookupConn s conn with
        | none => simp only [handle_teleport_request, hp]
        | some p => simp only [handle_teleport_request, hp]
      | some j =>
        cases j with
        | jint z => exact absurd rfl (htl z)
        | jnum q =>
          cases hp : lookupConn s conn with
          | none => simp only [handle_teleport_request, hp]
          | some p => simp only [handle_teleport_request, hp]
        | jstr st =>
          cases hp : lookupConn s conn with
          | none => simp only [handle_teleport_request, hp]
          | some p => simp only [handle_teleport_request, hp]
        | jnull =>
          cases hp : lookupConn s conn with
          | none => simp only [handle_teleport_request, hp]
          | some p => simp only [handle_teleport_request, hp]
    simp only [dispatch, h]
  · intro pos rot ly p e hp herr
    have h : handle_player_update s conn pos rot ly = .error (s, e) := by
      simp only [handle_player_update, hp, herr]
    simp only [dispatch, h]
  · intro sp dir ly p e hp herr
    have h : handle_bullet_fired s conn sp dir ly
        = .error ({ s with nextBulletId := s.nextBulletId + 1 }, e) := by
      simp only [handle_bullet_fired, hp, herr]
    simp only [dispatch, h]
  · intro c' hne
    unfold unregister_player
    cases hp : lookupConn s conn with
    | none => rfl
    | some p =>
      simp only [lookupConn, findConn_remove_ne _ _ _ hne]

/-- C2 amended witness: concrete instances — a malformed bullet_fired
unregisters the sender with the counter advanced, and an unknown event
type is a no-op. -/
theorem claim_C2_amended_witness :
    dispatch wEnv wState 0 (.bullet_fired none none none) 0
      = unregister_player { wState with nextBulletId := wState.nextBulletId + 1 } 0
    ∧ dispatch wEnv wState 0 (.unknown "frobnicate") 0 = (wState, []) :=
  ⟨(claim_C2_amended wEnv wState 0 0).2.2.2.2.1 none none none wPlayer "KeyError"
      rfl rfl,
   (claim_C2_amended wEnv wState 0 0).1 "frobnicate"⟩

/-! ### Claim C9: self-hits are processed like any other hit -/

/-- C9: a player_hit whose target id is the shooter's own id is not
rejected: the shooter takes the 10 damage and the +10 score credit, and if
the self-hit is lethal they end with the +500 defeat award on top of the
score after the -100 defeat penalty (floored at 0), at full health. -/
theorem claim_C9_self_hit (env : GameEnv) (s : ServerState) (conn : ℕ) (rnd : ℕ)
    (p : Player) (hp : lookupConn s conn = some p)
    (hfind : s.players.find? (fun e => e.2.id == p.id) = some (conn, p))
    (hid : p.id.isEmpty = false) :
    ∃ (s' : ServerState) (steps : List Step) (p' : Player),
      handle_player_hit env s conn (some p.id) rnd = .ok (s', steps)
        ∧ lookupConn s' conn = some p'
        ∧ (BULLET_DAMAGE < p.health →
            p'.health = p.health - BULLET_DAMAGE ∧ p'.score = p.score + 10)
        ∧ (p.health ≤ BULLET_DAMAGE →
            p'.health = MAX_HEALTH ∧ p'.score = max 0 (p.score + 10 - 100) + 500) := by
  have hcond : ¬ (¬ truthyOptStr (some p.id) = true
      ∨ ¬ truthyOptStr ((lookupConn s conn).map fun q => q.id) = true) := by
    rw [hp]
    simp [truthyOptStr, hid]
  have h1 : lookupConn { s with players := updateConn s.players conn
                                   { p with health := p.health - BULLET_DAMAGE } } conn
      = some { p with health := p.health - BULLET_DAMAGE } :=
    lookupConn_update_self s conn p _ hp
  have h2 : lookupConn { players :=
                           updateConn
                             (updateConn s.players conn
                               { p with health := p.health - BULLET_DAMAGE })
                             conn
                             { p with health := p.health - BULLET_DAMAGE
                                      score := p.score + 10 }
                         bullets := s.bullets
                         nextPlayerId := s.nextPlayerId
                         nextBulletId := s.nextBulletId } conn
      = some { p with health := p.health - BULLET_DAMAGE, score := p.score + 10 } := by
    have := lookupConn_update_self
      { s with players := updateConn s.players conn
                            { p with health := p.health - BULLET_DAMAGE } }
      conn _ { p with health := p.health - BULLET_DAMAGE, score := p.score + 10 } h1
    dsimp only at this
    exact this
  have hpen : (truthyOptStr (some p.id) && true) = true := by
    simp [truthyOptStr, hid]
  simp only [handle_player_hit, Option.getD_some]
  rw [if_neg hcond, hfind]
  dsimp only
  rw [h1]
  dsimp only
  rw [h2]
  dsimp only
  by_cases hdef : p.health - BULLET_DAMAGE ≤ 0
  · rw [if_pos hdef, respawn_ok env _ conn p.id (some p.id) true rnd _ h2]
    dsimp only
    simp only [hpen, eq_self_iff_true, if_true]
    have h3 := lookupConn_update_self _ conn _
      { p with position := get_random_open_position_on_layer env 0 rnd
               rotation := ⟨0, 0, 0⟩
               layer := 0
               health := MAX_HEALTH
               score := max 0 (p.score + 10 - 100) } h2
    dsimp only at h3
    rw [h3]
    dsimp only
    have h4 := lookupConn_update_self _ conn _
      { p with position := get_random_open_position_on_layer env 0 rnd
               rotation := ⟨0, 0, 0⟩
               layer := 0
               health := MAX_HEALTH
               score := max 0 (p.score + 10 - 100) + 500 } h3
    dsimp only at h4
    exact ⟨_, _, _, rfl, h4, fun hlt => absurd hdef (by omega), fun hle => ⟨rfl, rfl⟩⟩
  · rw [if_neg hdef]
    exact ⟨_, _, _, rfl, h2, fun hlt => ⟨rfl, rfl⟩,
      fun hle => absurd hle (by omega)⟩

/-- C9 witness: a concrete non-lethal self-hit. -/
theorem claim_C9_self_hit_witness :
    ∃ (s' : ServerState) (steps : List Step) (p' : Player),
      handle_player_hit wEnv wState 0 (some wPlayer.id) 3 = .ok (s', steps)
        ∧ lookupConn s' 0 = some p'
        ∧ (BULLET_DAMAGE < wPlayer.health →
            p'.health = wPlayer.health - BULLET_DAMAGE ∧ p'.score = wPlayer.score + 10)
        ∧ (wPlayer.health ≤ BULLET_DAMAGE →
            p'.health = MAX_HEALTH
              ∧ p'.score = max 0 (wPlayer.score + 10 - 100) + 500) :=
  claim_C9_self_hit wEnv wState 0 3 wPlayer rfl rfl rfl

/-! ### Claim C1: event ordering of player_hit -/

/-- The ordering the SPEC asserts for one event's trace (transcribed from
the spec's words, to be compared against the source's behavior): all
mutations strictly precede all broadcasts, and the broadcast types are
health_update then score_update, on defeat followed by player_defeated,
player_respawned, score_update. -/
def specC1Order (steps : List Step) : Bool :=
  ((steps.dropWhile Step.isMut).all fun st => !st.isMut)
  && (decide (bcastTypes steps = [MsgType.health_update, MsgType.score_update])
      || decide (bcastTypes steps = [MsgType.health_update, MsgType.score_update,
           MsgType.player_defeated, MsgType.player_respawned,
           MsgType.score_update]))

def c1Shooter : Player := ⟨"player_0", ⟨0, 0, 0⟩, ⟨0, 0, 0⟩, 0, 100, 0, 1⟩

def c1Target : Player := ⟨"player_1", ⟨0, 0, 0⟩, ⟨0, 0, 0⟩, 0, 100, 0, 2⟩

def c1State : ServerState := ⟨[(0, c1Shooter), (1, c1Target)], [], 2, 0⟩

/-- C1 counterexample: a concrete processed player_hit whose broadcasts
come out as score_update then health_update — the reverse of the order the
spec fixes — so its trace violates the spec's ordering rule. -/
theorem claim_C1_counterexample :
    ∃ (s' : ServerState) (steps : List Step),
      handle_player_hit wEnv c1State 0 (some "player_1") 0 = .ok (s', steps)
        ∧ bcastTypes steps = [MsgType.score_update, MsgType.health_update]
        ∧ specC1Order steps = false :=
  ⟨_, _, rfl, rfl, rfl⟩

/-- C1 amended: the exact trace of a processed player_hit on a live
target registered under a different connection: the target-health and
shooter-score mutations come first, then the score_update and
health_update broadcasts in that (source) order; on defeat the penalty
and respawn-reset mutations are applied after those two broadcasts were
already issued, followed by the player_defeated and player_respawned
broadcasts, the defeat-award mutation and a final score_update — so on a
defeat, mutation does not all precede broadcasting within the event
(the trailing conjunct states that the mutations are not a prefix of the
trace). -/
theorem claim_C1_amended (env : GameEnv) (s : ServerState) (conn : ℕ) (rnd : ℕ)
    (tid : String) (p tp : Player) (tconn : ℕ)
    (hp : lookupConn s conn = some p)
    (hfind : s.players.find? (fun e => e.2.id == tid) = some (tconn, tp))
    (htid : tid.isEmpty = false) (hsid : p.id.isEmpty = false)
    (hne : ¬ tconn = conn) :
    ∃ (s' : ServerState) (steps : List Step),
      handle_player_hit env s conn (some tid) rnd = .ok (s', steps)
        ∧ steps = (if tp.health - BULLET_DAMAGE ≤ 0
            then [Step.mut .targetHealth, Step.mut .shooterScoreHit,
                  Step.bcast (.score_update p.id (p.score + 10)),
                  Step.bcast (.health_update tid (tp.health - BULLET_DAMAGE) tp.score),
                  Step.mut .defeatPenalty, Step.mut .respawnReset,
                  Step.bcast (.player_defeated tid (max 0 (tp.score - 100)) (some p.id)),
                  Step.bcast (.player_respawned tid
                    (get_random_open_position_on_layer env 0 rnd) 0 MAX_HEALTH
                    (max 0 (tp.score - 100)) ⟨0, 0, 0⟩),
                  Step.mut .defeatAward,
                  Step.bcast (.score_update p.id (p.score + 10 + 500))]
            else [Step.mut .targetHealth, Step.mut .shooterScoreHit,
                  Step.bcast (.score_update p.id (p.score + 10)),
                  Step.bcast (.health_update tid (tp.health - BULLET_DAMAGE) tp.score)])
        ∧ bcastTypes steps = (if tp.health - BULLET_DAMAGE ≤ 0
            then [MsgType.score_update, MsgType.health_update,
                  MsgType.player_defeated, MsgType.player_respawned,
                  MsgType.score_update]
            else [MsgType.score_update, MsgType.health_update])
        ∧ (tp.health - BULLET_DAMAGE ≤ 0 →
            ((steps.dropWhile Step.isMut).all fun st => !st.isMut) = false) := by
  have hne' : ¬ conn = tconn := fun h => hne h.symm
  have hcond : ¬ (¬ truthyOptStr (some tid) = true
      ∨ ¬ truthyOptStr ((lookupConn s conn).map fun q => q.id) = true) := by
    rw [hp]
    simp [truthyOptStr, htid, hsid]
  obtain ⟨q, hq⟩ : ∃ q, lookupConn s tconn = some q := by
    have hmem := List.mem_of_find?_eq_some hfind
    unfold lookupConn
    cases hf : s.players.find? fun e => e.1 == tconn with
    | some e => exact ⟨e.2, rfl⟩
    | none =>
      have := List.find?_eq_none.mp hf _ hmem
      simp at this
  have h1 : lookupConn { s with players := updateConn s.players tconn
                                   { tp with health := tp.health - BULLET_DAMAGE } } conn
      = some p := by
    rw [lookupConn_update_other s tconn conn _ hne']
    exact hp
  have h1t : lookupConn { s with players := updateConn s.players tconn
                                    { tp with health := tp.health - BULLET_DAMAGE } } tconn
      = some { tp with health := tp.health - BULLET_DAMAGE } :=
    lookupConn_update_self s tconn q _ hq
  have h2 : lookupConn { players :=
                           updateConn
                             (updateConn s.players tconn
                               { tp with health := tp.health - BULLET_DAMAGE })
                             conn
                             { p with score := p.score + 10 }
                         bullets := s.bullets
                         nextPlayerId := s.nextPlayerId
                         nextBulletId := s.nextBulletId } tconn
      = some { tp with health := tp.health - BULLET_DAMAGE } := by
    have := lookupConn_update_other
      { s with players := updateConn s.players tconn
                            { tp with health := tp.health - BULLET_DAMAGE } }
      conn tconn { p with score := p.score + 10 } hne
    dsimp only at this
    rw [this]
    exact h1t
  have hpen : (truthyOptStr (some p.id) && true) = true := by
    simp [truthyOptStr, hsid]
  simp only [handle_player_hit, Option.getD_some]
  rw [if_neg hcond, hfind]
  dsimp only
  rw [h1]
  dsimp only
  rw [h2]
  dsimp only
  by_cases hdef : tp.health - BULLET_DAMAGE ≤ 0
  · rw [if_pos hdef, respawn_ok env _ tconn tid (some p.id) true rnd _ h2]
    dsimp only
    simp only [hpen, eq_self_iff_true, if_true]
    have h3 : lookupConn { players :=
                             updateConn
                               (updateConn
                                 (updateConn s.players tconn
                                   { tp with health := tp.health - BULLET_DAMAGE })
                                 conn
                                 { p with score := p.score + 10 })
                               tconn
                               { tp with position := get_random_open_position_on_layer env 0 rnd
                                         rotation := ⟨0, 0, 0⟩
                                         layer := 0
                                         health := MAX_HEALTH
                                         score := max 0 (tp.score - 100) }
                           bullets := s.bullets
                           nextPlayerId := s.nextPlayerId
                           nextBulletId := s.nextBulletId } conn
        = some { p with score := p.score + 10 } := by
      have := lookupConn_update_other
        { players :=
            updateConn
              (updateConn s.players tconn
                { tp with health := tp.health - BULLET_DAMAGE })
              conn
              { p with score := p.score + 10 }
          bullets := s.bullets
          nextPlayerId := s.nextPlayerId
          nextBulletId := s.nextBulletId }
        tconn conn
        { tp with position := get_random_open_position_on_layer env 0 rnd
                  rotation := ⟨0, 0, 0⟩
                  layer := 0
                  health := MAX_HEALTH
                  score := max 0 (tp.score - 100) } hne'
      dsimp only at this
      rw [this]
      exact lookupConn_update_self _ conn _ _ h1
    rw [h3]
    dsimp only
    refine ⟨_, _, rfl, ?_, ?_, ?_⟩
    · rw [if_pos hdef]
      rfl
    · rw [if_pos hdef]
      rfl
    · intro h'
      rfl
  · rw [if_neg hdef]
    refine ⟨_, _, rfl, ?_, ?_, ?_⟩
    · rw [if_neg hdef]
      rfl
    · rw [if_neg hdef]
      rfl
    · intro h'
      exact absurd h' hdef

def c1Victim : Player := ⟨"player_1", ⟨0, 0, 0⟩, ⟨0, 0, 0⟩, 0, 10, 0, 2⟩

def c1StateL : ServerState := ⟨[(0, c1Shooter), (1, c1Victim)], [], 2, 0⟩

/-- C1 amended witness: a concrete lethal two-player hit, exercising the
defeat branch of the trace including the mutation-after-broadcast
conjunct. -/
theorem claim_C1_amended_witness :
    ∃ (s' : ServerState) (steps : List Step),
      handle_player_hit wEnv c1StateL 0 (some "player_1") 0 = .ok (s', steps)
        ∧ steps = (if c1Victim.health - BULLET_DAMAGE ≤ 0
            then [Step.mut .targetHealth, Step.mut .shooterScoreHit,
                  Step.bcast (.score_update c1Shooter.id (c1Shooter.score + 10)),
                  Step.bcast (.health_update "player_1"
                    (c1Victim.health - BULLET_DAMAGE) c1Victim.score),
                  Step.mut .defeatPenalty, Step.mut .respawnReset,
                  Step.bcast (.player_defeated "player_1"
                    (max 0 (c1Victim.score - 100)) (some c1Shooter.id)),
                  Step.bcast (.player_respawned "player_1"
                    (get_random_open_position_on_layer wEnv 0 0) 0 MAX_HEALTH
                    (max 0 (c1Victim.score - 100)) ⟨0, 0, 0⟩),
                  Step.mut .defeatAward,
                  Step.bcast (.score_update c1Shooter.id (c1Shooter.score + 10 + 500))]
            else [Step.mut .targetHealth, Step.mut .shooterScoreHit,
                  Step.bcast (.score_update c1Shooter.id (c1Shooter.score + 10)),
                  Step.bcast (.health_update "player_1"
                    (c1Victim.health - BULLET_DAMAGE) c1Victim.score)])
        ∧ bcastTypes steps = (if c1Victim.health - BULLET_DAMAGE ≤ 0
            then [MsgType.score_update, MsgType.health_update,
                  MsgType.player_defeated, MsgType.player_respawned,
                  MsgType.score_update]
            else [MsgType.score_update, MsgType.health_update])
        ∧ (c1Victim.health - BULLET_DAMAGE ≤ 0 →
            ((steps.dropWhile Step.isMut).all fun st => !st.isMut) = false) :=
  claim_C1_amended wEnv c1StateL 0 0 "player_1" c1Shooter c1Victim 1
    rfl rfl rfl rfl (by decide)

/-! ### Claim C7: scores never go negative -/

/-- The state a handler leaves behind, whether it returned or raised (the
dispatcher unregisters the sender on a raise but keeps the raised-at
state). -/
def exState : Except (ServerState × String) (ServerState × List Step) → ServerState
  | .ok (s1, _) => s1
  | .error (s1, _) => s1

def scoresOK (ps : List (ℕ × Player)) : Prop := ∀ e ∈ ps, 0 ≤ e.2.score

def ScoreInv (s : ServerState) : Prop := scoresOK s.players

theorem scoresOK_update (ps : List (ℕ × Player)) (c : ℕ) (p : Player)
    (h : scoresOK ps) (hp : 0 ≤ p.score) : scoresOK (updateConn ps c p) := by
  intro e he
  obtain ⟨a, ha, hae⟩ := List.mem_map.mp he
  by_cases hac : a.1 = c
  · rw [if_pos hac] at hae
    rw [← hae]
    exact hp
  · rw [if_neg hac] at hae
    rw [← hae]
    exact h a ha

theorem scoresOK_remove (ps : List (ℕ × Player)) (c : ℕ) (h : scoresOK ps) :
    scoresOK (removeConn ps c) :=
  fun e he => h e (List.mem_filter.mp he).1

theorem scoresOK_append (ps : List (ℕ × Player)) (e0 : ℕ × Player)
    (h : scoresOK ps) (h0 : 0 ≤ e0.2.score) : scoresOK (ps ++ [e0]) := by
  intro e he
  rcases List.mem_append.mp he with h1 | h1
  · exact h e h1
  · rw [List.mem_singleton.mp h1]
    exact h0

theorem lookup_score (s : ServerState) (conn : ℕ) (p : Player)
    (h : ScoreInv s) (hp : lookupConn s conn = some p) : 0 ≤ p.score := by
  obtain ⟨e, he, hep⟩ := lookupConn_mem s conn p hp
  rw [← hep]
  exact h e he

theorem respawn_inv_ok (env : GameEnv) (s : ServerState) (conn : ℕ) (pid : String)
    (k : Option String) (rs : Bool) (rnd : ℕ) (s3 : ServerState) (stepsR : List Step)
    (heq : respawn_player env s conn pid k rs rnd = .ok (s3, stepsR))
    (h : ScoreInv s) : ScoreInv s3 := by
  cases hq : lookupConn s conn with
  | none =>
    simp only [respawn_player, hq] at heq
    cases heq
  | some q =>
    rw [respawn_ok env s conn pid k rs rnd q hq] at heq
    injection heq with hpair
    injection hpair with h3 hsteps
    rw [← h3]
    refine scoresOK_update _ _ _ h ?_
    dsimp only
    split
    · exact le_max_left 0 _
    · exact lookup_score s conn q h hq

theorem respawn_inv_err (env : GameEnv) (s : ServerState) (conn : ℕ) (pid : String)
    (k : Option String) (rs : Bool) (rnd : ℕ) (e : ServerState × String)
    (heq : respawn_player env s conn pid k rs rnd = .error e)
    (h : ScoreInv s) : ScoreInv e.1 := by
  cases hq : lookupConn s conn with
  | some q =>
    rw [respawn_ok env s conn pid k rs rnd q hq] at heq
    cases heq
  | none =>
    unfold respawn_player at heq
    rw [hq] at heq
    injection heq with hpair
    rw [← hpair]
    exact h

theorem player_update_inv (s : ServerState) (conn : ℕ)
    (pos rot : Option PosDict) (ly : Option JVal) (h : ScoreInv s) :
    ScoreInv (exState (handle_player_update s conn pos rot ly)) := by
  unfold handle_player_update
  split
  · exact h
  · next p hp =>
    split
    · exact h
    · exact scoresOK_update _ _ _ h (lookup_score s conn p h hp)

theorem bullet_inv (s : ServerState) (conn : ℕ)
    (sp dir : Option PosDict) (ly : Option JVal) (h : ScoreInv s) :
    ScoreInv (exState (handle_bullet_fired s conn sp dir ly)) := by
  unfold handle_bullet_fired
  split
  · exact h
  · split
    · exact h
    · exact h

theorem teleport_request_inv (env : GameEnv) (s : ServerState) (conn : ℕ)
    (tl : Option JVal) (h : ScoreInv s) :
    ScoreInv (exState (handle_teleport_request env s conn tl)) := by
  unfold handle_teleport_request
  split
  · exact h
  · next p hp =>
    dsimp only
    repeat' split
    all_goals try exact h
    all_goals exact scoresOK_update _ _ _ h (lookup_score s conn p h hp)

theorem teleport_to_start_inv (env : GameEnv) (s : ServerState) (conn : ℕ)
    (rnd : ℕ) (h : ScoreInv s) :
    ScoreInv (exState (handle_teleport_to_start env s conn rnd)) := by
  unfold handle_teleport_to_start
  split
  · exact h
  · next p hp =>
    exact scoresOK_update _ _ _ h (lookup_score s conn p h hp)

theorem reached_end_inv (env : GameEnv) (s : ServerState) (conn : ℕ)
    (rnd : ℕ) (h : ScoreInv s) :
    ScoreInv (exState (handle_player_reached_end env s conn rnd)) := by
  unfold handle_player_reached_end
  split
  · exact h
  · next p hp =>
    dsimp only
    split
    · split
      · next e heqr => exact respawn_inv_err _ _ _ _ _ _ _ _ heqr h
      · next s3 stepsR heqr => exact respawn_inv_ok _ _ _ _ _ _ _ _ _ heqr h
    · exact h

theorem hit_inv (env : GameEnv) (s : ServerState) (conn : ℕ)
    (tid : Option String) (rnd : ℕ) (h : ScoreInv s) :
    ScoreInv (exState (handle_player_hit env s conn tid rnd)) := by
  unfold handle_player_hit
  dsimp only
  split
  · exact h
  · split
    · exact h
    · next tgt hfind =>
      have htgt : 0 ≤ tgt.2.score := h tgt (List.mem_of_find?_eq_some hfind)
      have h1 : scoresOK (updateConn s.players tgt.1
          { tgt.2 with health := tgt.2.health - BULLET_DAMAGE }) :=
        scoresOK_update _ _ _ h htgt
      split
      · exact h1
      · next sh1 hsh1 =>
        have hsh1s : 0 ≤ sh1.score := lookup_score
          { s with players := updateConn s.players tgt.1
                     { tgt.2 with health := tgt.2.health - BULLET_DAMAGE } }
          conn sh1 h1 hsh1
        have h2 : scoresOK (updateConn (updateConn s.players tgt.1
            { tgt.2 with health := tgt.2.health - BULLET_DAMAGE }) conn
            { sh1 with score := sh1.score + 10 }) :=
          scoresOK_update _ _ _ h1 (by dsimp only; omega)
        split
        · exact h2
        · next tp2 htp2 =>
          split
          · split
            · next e heqr => exact respawn_inv_err _ _ _ _ _ _ _ _ heqr h2
            · next s3 stepsR heqr =>
              have h3 : ScoreInv s3 := respawn_inv_ok _ _ _ _ _ _ _ _ _ heqr h2
              split
              · exact h3
              · next sh3 hsh3 =>
                refine scoresOK_update _ _ _ h3 ?_
                have := lookup_score s3 conn sh3 h3 hsh3
                dsimp only
                omega
          · exact h2

theorem unregister_inv (s : ServerState) (conn : ℕ) (h : ScoreInv s) :
    ScoreInv (unregister_player s conn).1 := by
  unfold unregister_player
  split
  · exact scoresOK_remove _ _ h
  · exact h

theorem register_inv (env : GameEnv) (s : ServerState) (conn : ℕ)
    (a b : ℕ) (h : ScoreInv s) :
    ScoreInv (register_player env s conn a b).1 :=
  scoresOK_append _ _ h (le_refl 0)

theorem dispatch_inv (env : GameEnv) (s : ServerState) (conn : ℕ)
    (msg : ClientMsg) (rnd : ℕ) (h : ScoreInv s) :
    ScoreInv (dispatch env s conn msg rnd).1 := by
  unfold dispatch
  cases msg with
  | player_update pos rot ly =>
    dsimp only
    split
    · next s' steps heqr =>
      have hh := player_update_inv s conn pos rot ly h
      rw [heqr] at hh
      exact hh
    · next s' m heqr =>
      have hh := player_update_inv s conn pos rot ly h
      rw [heqr] at hh
      exact unregister_inv s' conn hh
  | bullet_fired sp dir ly =>
    dsimp only
    split
    · next s' steps heqr =>
      have hh := bullet_inv s conn sp dir ly h
      rw [heqr] at hh
      exact hh
    · next s' m heqr =>
      have hh := bullet_inv s conn sp dir ly h
      rw [heqr] at hh
      exact unregister_inv s' conn hh
  | player_hit tid =>
    dsimp only
    split
    · next s' steps heqr =>
      have hh := hit_inv env s conn tid rnd h
      rw [heqr] at hh
      exact hh
    · next s' m heqr =>
      have hh := hit_inv env s conn tid rnd h
      rw [heqr] at hh
      exact unregister_inv s' conn hh
  | teleport_request tl =>
    dsimp only
    split
    · next s' steps heqr =>
      have hh := teleport_request_inv env s conn tl h
      rw [heqr] at hh
      exact hh
    · next s' m heqr =>
      have hh := teleport_request_inv env s conn tl h
      rw [heqr] at hh
      exact unregister_inv s' conn hh
  | teleport_to_start =>
    dsimp only
    split
    · next s' steps heqr =>
      have hh := teleport_to_start_inv env s conn rnd h
      rw [heqr] at hh
      exact hh
    · next s' m heqr =>
      have hh := teleport_to_start_inv env s conn rnd h
      rw [heqr] at hh
      exact unregister_inv s' conn hh
  | player_reached_end =>
    dsimp only
    split
    · next s' steps heqr =>
      have hh := reached_end_inv env s conn rnd h
      rw [heqr] at hh
      exact hh
    · next s' m heqr =>
      have hh := reached_end_inv env s conn rnd h
      rw [heqr] at hh
      exact unregister_inv s' conn hh
  | unknown ty =>
    dsimp only
    exact h

theorem stepEvent_inv (env : GameEnv) (s : ServerState) (ev : GEvent)
    (h : ScoreInv s) : ScoreInv (stepEvent env s ev).1 := by
  cases ev with
  | join conn a b => exact register_inv env s conn a b h
  | leave conn => exact unregister_inv s conn h
  | message conn msg rnd => exact dispatch_inv env s conn msg rnd h

theorem runEvents_inv (env : GameEnv) (evs : List GEvent) :
    ∀ s0 : ServerState, ScoreInv s0 → ScoreInv (runEvents env s0 evs) := by
  induction evs with
  | nil => intro s0 h; exact h
  | cons e es ih =>
    intro s0 h
    show ScoreInv ((e :: es).foldl (fun s ev => (stepEvent env s ev).1) s0)
    rw [List.foldl_cons]
    exact ih _ (stepEvent_inv env s0 e h)

/-- C7: after any sequence of processed events starting from the initial
state, every registered player's score is non-negative. -/
theorem claim_C7_score_nonneg (env : GameEnv) (evs : List GEvent) :
    ScoreInv (runEvents env initState evs) :=
  runEvents_inv env evs initState (fun e he => absurd he (List.not_mem_nil e))


end LanFPS
